import Mathlib

set_option linter.unusedSectionVars false

/-!
Verification of the Weighted Inner Product (WIP) argument implementation.

This file shallowly embeds the two protocol modules of the repository:
`weighted_inner_product.rs` (single weight row) and `modified_wip.rs`
(multi-row weighting).  The elliptic-curve group `Ep` of the source is
modelled as an arbitrary module `G` over the scalar field `F` (the code only
uses group addition, the identity, scalar multiplication and equality), and
the Fiat–Shamir transcript as an arbitrary deterministic state machine with
`writePoint` and `squeeze` operations.  Rust panics (`assert!`,
`assert_eq!`, explicit `panic!`, and index panics) are modelled with
`Except Err`, whose constructors record which check failed.  Randomness
(`OsRng`) is modelled as an injected stream `rng : ℕ → F` consumed in draw
order.
-/

/-- Failure modes of the embedded code.  Each constructor corresponds to one
family of panics in the source:
`dimMismatch` — the length `assert_eq!`s on witness/generator vectors;
`openingMismatch` — the prover's `assert_eq!(multiexp(..), *p)` sanity check;
`zeroChallenge` — the `panic!("zero challenge ..")` in the transcript helpers;
`entryLen` — the verifier's entry `assert_eq!`s on `L.len()`/`R.len()`/
`generators_g.len()`;
`finalCheck` — the verifier's final `assert_eq!(multiexp(..), identity)`;
`indexOOB` — an out-of-bounds vector index in the verifier (the unchecked
`generators_h[i]`, `proof.s_answer[i]` and `product_cache[..]` accesses),
a Rust index/underflow panic. -/
inductive Err : Type where
  | dimMismatch : Err
  | openingMismatch : Err
  | zeroChallenge : Err
  | entryLen : Err
  | finalCheck : Err
  | indexOOB : Err
deriving DecidableEq, Repr

/-- The transcript interface used by the code: `write_point` absorbs a group
element, `squeeze_challenge_scalar` deterministically produces a scalar and
advances the state. -/
structure TO (F G σ : Type) where
  writePoint : σ → G → σ
  squeeze : σ → F × σ

/-- `WipWitness` of `weighted_inner_product.rs`. -/
structure WipWitness (F : Type) where
  a : List F
  b : List F
  alpha : F
deriving DecidableEq

/-- `WipProof` of `weighted_inner_product.rs`. -/
structure WipProof (F G : Type) where
  L : List G
  R : List G
  A : G
  B : G
  r_answer : F
  s_answer : F
  delta_answer : F
deriving DecidableEq

/-- The commitment input `P`: an opaque point or an explicit term list. -/
inductive P (F G : Type) : Type where
  | point : G → P F G
  | terms : List (F × G) → P F G
deriving DecidableEq

section Defs

variable {F : Type} [Field F] [DecidableEq F]
variable {G : Type} [AddCommGroup G] [DecidableEq G] [Module F G]
variable {σ : Type}
variable {α : Type}

/-- `multiexp`: collapse a `P` into a single group element. -/
def multiexp : P F G → G
  | P.point p => p
  | P.terms v => v.foldl (fun res sb => res + sb.1 • sb.2) 0

/-- `inner_product`, including its `assert_eq!(a.len(), b.len())`. -/
def inner_product (a b : List F) : Except Err F :=
  if a.length = b.length then
    Except.ok ((a.zip b).foldl (fun acc p => acc + p.1 * p.2) 0)
  else Except.error Err.dimMismatch

/-- `split_vector_in_half`: the extra element of an odd-length vector goes
into the first half (`mid = len/2 + len%2`). -/
def split_vector_in_half (v : List α) : List α × List α :=
  let mid := v.length / 2 + v.length % 2
  (v.take mid, v.drop mid)

/-- The inner `while slots > 0` loop of `challenge_products`.  One call
`cpSlots c products slots` performs, for `slots, slots-2, …, 1`:
`products[slots] = products[slots/2] * c.1` and
`products[slots-1] = products[slots/2] * c.2` (the source reads
`products[slots/2]` before both writes; the two indices written never
coincide with the index read).  `slots` is decremented by a saturating 2. -/
def cpSlots (c : F × F) : List F → ℕ → List F
  | products, 0 => products
  | products, 1 =>
    let v := products.getD 0 1
    (products.set 1 (v * c.1)).set 0 (v * c.2)
  | products, slots + 2 =>
    let v := products.getD ((slots + 2) / 2) 1
    cpSlots c ((products.set (slots + 2) (v * c.1)).set (slots + 1) (v * c.2)) slots

/-- The outer `for (j, challenge) in challenges.iter().enumerate().skip(1)`
loop of `challenge_products`; `j` is the index in the full challenge list. -/
def cpRounds : List (F × F) → ℕ → List F → List F
  | [], _, products => products
  | c :: rest, j, products => cpRounds rest (j + 1) (cpSlots c products (2 ^ (j + 1) - 1))

/-- `challenge_products`: expand `m` challenge/inverse pairs into the
exponent table of size `2^m`.  (The `debug_assert!` that no entry is zero is
debug-only and not modelled.) -/
def challenge_products (challenges : List (F × F)) : List F :=
  let products : List F := List.replicate (2 ^ challenges.length) 1
  match challenges with
  | [] => products
  | c :: rest => cpRounds rest 1 ((products.set 0 c.2).set 1 c.1)

/-- `transcript_A_B`: write `A`, `B`, squeeze a challenge; panic when it is
zero. -/
def transcript_A_B (T : TO F G σ) (ts : σ) (A B : G) : Except Err (F × σ) :=
  let ts1 := T.writePoint ts A
  let ts2 := T.writePoint ts1 B
  let p := T.squeeze ts2
  if p.1 = 0 then Except.error Err.zeroChallenge else Except.ok p

/-- `transcript_L_R`: write `L`, `R`, squeeze a challenge; panic when it is
zero. -/
def transcript_L_R (T : TO F G σ) (ts : σ) (L R : G) : Except Err (F × σ) :=
  let ts1 := T.writePoint ts L
  let ts2 := T.writePoint ts1 R
  let p := T.squeeze ts2
  if p.1 = 0 then Except.error Err.zeroChallenge else Except.ok p

/-- `next_G_H`: derive the round challenge from `(L, R)` and fold the two
generator half-vectors.  Returns `(e, inv_e, e², inv_e², new_g, new_h)` and
the advanced transcript.  (`e.invert().unwrap()` cannot fail since `e ≠ 0`
is enforced by `transcript_L_R`; in the field embedding it is `e⁻¹`.) -/
def next_G_H (T : TO F G σ) (ts : σ) (g_bold1 g_bold2 h_bold1 h_bold2 : List G)
    (L R : G) : Except Err (F × F × F × F × List G × List G × σ) :=
  if g_bold1.length = g_bold2.length ∧ h_bold1.length = h_bold2.length ∧
      g_bold1.length = h_bold1.length then
    match transcript_L_R T ts L R with
    | Except.error e => Except.error e
    | Except.ok (e, ts') =>
      let inv_e := e⁻¹
      let new_g_bold := List.zipWith
        (fun x y => multiexp (P.terms [(inv_e, x), (e, y)])) g_bold1 g_bold2
      let new_h_bold := List.zipWith
        (fun x y => multiexp (P.terms [(e, x), (inv_e, y)])) h_bold1 h_bold2
      Except.ok (e, inv_e, e * e, inv_e * inv_e, new_g_bold, new_h_bold, ts')
  else Except.error Err.dimMismatch

/-- The witness-folding step of the prover's round: `tmp1 = x.map(*cx)`,
`tmp2 = y.map(*cy)`, then the elementwise sum. -/
def fold_scalars (x y : List F) (cx cy : F) : List F :=
  List.zipWith (fun p q => p + q) (x.map fun t => t * cx) (y.map fun t => t * cy)

/-- The `n == 1` final round of `prove` (after the loop exits): asserts the
four working vectors have length 1, draws `r`, `s`, `delta`, `long_n`,
forms `A` and `B`, derives the final challenge and builds the proof. -/
def proveFinal (T : TO F G σ) (rng : ℕ → F) (generator_g generator_h : G)
    (i : ℕ) (ts : σ) (a b : List F) (g_bold h_bold : List G) (alpha : F)
    (L_vec R_vec : List G) : Except Err (WipProof F G × σ) :=
  match g_bold, h_bold, a, b with
  | [g0], [h0], [a0], [b0] =>
    let r := rng i
    let s := rng (i + 1)
    let delta := rng (i + 2)
    let long_n := rng (i + 3)
    let A_terms : List (F × G) :=
      [(r, g0), (s, h0), ((r * b0) + (s * a0), generator_g), (delta, generator_h)]
    let A := multiexp (P.terms A_terms)
    let B_terms : List (F × G) := [(r * s, generator_g), (long_n, generator_h)]
    let B := multiexp (P.terms B_terms)
    match transcript_A_B T ts A B with
    | Except.error e => Except.error e
    | Except.ok (e, ts') =>
      Except.ok ({ L := L_vec, R := R_vec, A := A, B := B,
                   r_answer := r + (a0 * e), s_answer := s + (b0 * e),
                   delta_answer := long_n + (delta * e) + (alpha * (e * e)) }, ts')
  | _, _, _, _ => Except.error Err.dimMismatch

/-- The `while g_bold.len() > 1` loop of `prove` followed by the `n == 1`
final round.  `fuel` bounds the number of loop iterations; `prove` passes
`generators_g.len()`, which strictly exceeds the iteration count because the
working length strictly decreases every round, so the `0`-fuel branch inside
the loop test is unreachable.  `i` is the position in the random stream. -/
def proveLoop (T : TO F G σ) (rng : ℕ → F) (generator_g generator_h : G) :
    ℕ → ℕ → σ → List F → List F → List G → List G → F → List G → List G →
    Except Err (WipProof F G × σ)
  | 0, i, ts, a, b, g_bold, h_bold, alpha, L_vec, R_vec =>
    if 1 < g_bold.length then
      -- unreachable: the working length strictly decreases every round
      Except.error Err.dimMismatch
    else proveFinal T rng generator_g generator_h i ts a b g_bold h_bold alpha L_vec R_vec
  | fuel + 1, i, ts, a, b, g_bold, h_bold, alpha, L_vec, R_vec =>
    if 1 < g_bold.length then
      let a1 := (split_vector_in_half a).1
      let a2 := (split_vector_in_half a).2
      let b1 := (split_vector_in_half b).1
      let b2 := (split_vector_in_half b).2
      let g_bold1 := (split_vector_in_half g_bold).1
      let g_bold2 := (split_vector_in_half g_bold).2
      let h_bold1 := (split_vector_in_half h_bold).1
      let h_bold2 := (split_vector_in_half h_bold).2
      let n_hat := g_bold1.length
      -- the eight `assert_eq!(.., n_hat)` checks (the one on g_bold1 is
      -- trivially true by the definition of n_hat)
      if a1.length = n_hat ∧ a2.length = n_hat ∧ b1.length = n_hat ∧
          b2.length = n_hat ∧ g_bold2.length = n_hat ∧
          h_bold1.length = n_hat ∧ h_bold2.length = n_hat then
        let d_l := rng i
        let d_r := rng (i + 1)
        match inner_product a1 b2 with
        | Except.error e => Except.error e
        | Except.ok c_l =>
          match inner_product a2 b1 with
          | Except.error e => Except.error e
          | Except.ok c_r =>
            let L_terms := (a1.zip g_bold2) ++ (b2.zip h_bold1) ++
              [(c_l, generator_g), (d_l, generator_h)]
            let L := multiexp (P.terms L_terms)
            let R_terms := (a2.zip g_bold1) ++ (b1.zip h_bold2) ++
              [(c_r, generator_g), (d_r, generator_h)]
            let R := multiexp (P.terms R_terms)
            match next_G_H T ts g_bold1 g_bold2 h_bold1 h_bold2 L R with
            | Except.error e => Except.error e
            | Except.ok (e, inv_e, e_square, inv_e_square, g_bold', h_bold', ts') =>
              let a' := fold_scalars a1 a2 e inv_e
              let b' := fold_scalars b1 b2 inv_e e
              let alpha' := alpha + (d_l * e_square) + (d_r * inv_e_square)
              proveLoop T rng generator_g generator_h fuel (i + 2) ts' a' b'
                g_bold' h_bold' alpha' (L_vec ++ [L]) (R_vec ++ [R])
      else Except.error Err.dimMismatch
    else proveFinal T rng generator_g generator_h i ts a b g_bold h_bold alpha L_vec R_vec

/-- `prove` of `weighted_inner_product.rs`: the `P::Point` opening sanity
check (which itself calls `inner_product`, whose length assert fires first),
then the two entry length asserts, then the folding loop. -/
def prove (T : TO F G σ) (rng : ℕ → F) (ts : σ) (witness : WipWitness F)
    (generators_g generators_h : List G) (generator_g generator_h : G)
    (p : P F G) : Except Err (WipProof F G × σ) :=
  let sanity : Except Err Unit :=
    match p with
    | P.point pt =>
      match inner_product witness.a witness.b with
      | Except.error e => Except.error e
      | Except.ok ip =>
        let p_terms := (witness.a.zip generators_g) ++ (witness.b.zip generators_h) ++
          [(ip, generator_g), (witness.alpha, generator_h)]
        if multiexp (P.terms p_terms) = pt then Except.ok () else Except.error Err.openingMismatch
    | P.terms _ => Except.ok ()
  match sanity with
  | Except.error e => Except.error e
  | Except.ok _ =>
    if witness.a.length = witness.b.length then
      if generators_g.length = witness.a.length then
        proveLoop T rng generator_g generator_h generators_g.length 0 ts
          witness.a witness.b generators_g generators_h witness.alpha [] []
      else Except.error Err.dimMismatch
    else Except.error Err.dimMismatch

/-- The verifier's `while (1 << lr_len) < generators_g.len()` loop computing
the round count; a fuel of `n` suffices since `n ≤ 2^n`. -/
def lrLenGo (n : ℕ) : ℕ → ℕ → ℕ
  | 0, k => k
  | fuel + 1, k => if 2 ^ k < n then lrLenGo n fuel (k + 1) else k

/-- The round count the verifier derives from `generators_g.len()`: the
least `k` with `2^k ≥ n`. -/
def lrLen (n : ℕ) : ℕ := lrLenGo n n 0

/-- The verifier's challenge-recomputation loop: for each `(L, R)` pair of
the proof, write both points and squeeze a challenge. -/
def vChallenges (T : TO F G σ) : σ → List (G × G) → Except Err (List F × σ)
  | ts, [] => Except.ok ([], ts)
  | ts, (L, R) :: rest =>
    match transcript_L_R T ts L R with
    | Except.error e => Except.error e
    | Except.ok (e, ts') =>
      match vChallenges T ts' rest with
      | Except.error e2 => Except.error e2
      | Except.ok (es, ts2) => Except.ok (e :: es, ts2)

/-- `verify` up to (but not including) its final
`assert_eq!(multiexp(..), identity)`: the entry length checks, challenge
recomputation, batch inversion (`BatchInverter` = elementwise inverse),
the challenge-product table, and the accumulator `multiexp_var`.
The h-loop runs `for i in 0..generators_g.len()` and indexes
`generators_h[i]` with no length check tying `generators_h` to
`generators_g`, so it panics (modelled `Err.indexOOB`) when `generators_h`
is shorter than `generators_g`; the remaining indexing (`generators_g[i]`,
`product_cache[i]`, `product_cache[len - 1 - i]`) is in bounds once the
entry check passed and is written with `getD`. -/
def verifyAcc (T : TO F G σ) (ts : σ) (proof : WipProof F G)
    (generators_g generators_h : List G) (generator_g generator_h : G)
    (p : P F G) : Except Err (List (F × G)) :=
  let lr_len := lrLen generators_g.length
  if proof.L.length = lr_len ∧ proof.R.length = lr_len ∧
      generators_g.length = 2 ^ lr_len then
    let P_terms : List (F × G) :=
      match p with
      | P.point point => [(1, point)]
      | P.terms terms => terms
    match vChallenges T ts (proof.L.zip proof.R) with
    | Except.error e => Except.error e
    | Except.ok (es, ts') =>
      let inv_es := es.map fun e => e⁻¹
      let challenges := es.zip inv_es
      let P_terms := P_terms ++ (challenges.zip (proof.L.zip proof.R)).flatMap
        (fun x => [(x.1.1 * x.1.1, x.2.1), (x.1.2 * x.1.2, x.2.2)])
      let product_cache := challenge_products challenges
      match transcript_A_B T ts' proof.A proof.B with
      | Except.error e => Except.error e
      | Except.ok (e, _) =>
        let neg_e_square := -(e * e)
        let multiexp_var := P_terms.map fun sc => (sc.1 * neg_e_square, sc.2)
        let re := proof.r_answer * e
        let multiexp_var := multiexp_var ++ (List.range generators_g.length).map
          (fun i => (product_cache.getD i 0 * re, generators_g.getD i 0))
        if generators_g.length ≤ generators_h.length then
          let se := proof.s_answer * e
          let multiexp_var := multiexp_var ++ (List.range generators_g.length).map
            (fun i => (se * product_cache.getD (product_cache.length - 1 - i) 0,
                       generators_h.getD i 0))
          let multiexp_var := multiexp_var ++
            [(-e, proof.A), (proof.r_answer * proof.s_answer, generator_g),
             (proof.delta_answer, generator_h), (-1, proof.B)]
          Except.ok multiexp_var
        else Except.error Err.indexOOB
  else Except.error Err.entryLen

/-- `verify` of `weighted_inner_product.rs`: the accumulator computation
followed by the final `assert_eq!(multiexp(&P::Terms(multiexp_var)),
Ep::identity())`. -/
def verify (T : TO F G σ) (ts : σ) (proof : WipProof F G)
    (generators_g generators_h : List G) (generator_g generator_h : G)
    (p : P F G) : Except Err Unit :=
  match verifyAcc T ts proof generators_g generators_h generator_g generator_h p with
  | Except.error e => Except.error e
  | Except.ok mv =>
    if multiexp (P.terms mv) = 0 then Except.ok () else Except.error Err.finalCheck

end Defs

/-! ### Spec-side algebra: multiexponentiations as sums -/

section SpecAlg

variable {F : Type} [Field F] [DecidableEq F]
variable {G : Type} [AddCommGroup G] [DecidableEq G] [Module F G]
variable {σ : Type}
variable {α β : Type}

/-- The value of a term list: the sum of its scalar multiples. -/
def sumTerms (l : List (F × G)) : G := (l.map fun p => p.1 • p.2).sum

/-- The multiexponentiation of a coefficient list against a generator list
(truncating at the shorter). -/
def dotG (cs : List F) (gs : List G) : G := (List.zipWith (fun c g => c • g) cs gs).sum

theorem foldl_add_eq_sum (f : α → G) (l : List α) (c : G) :
    l.foldl (fun res sb => res + f sb) c = c + (l.map f).sum := by
  induction l generalizing c with
  | nil => simp
  | cons x xs ih => simp [ih, add_assoc]

theorem multiexp_terms (l : List (F × G)) : multiexp (P.terms l) = sumTerms l := by
  simpa [multiexp, sumTerms] using foldl_add_eq_sum (fun p : F × G => p.1 • p.2) l 0

theorem sumTerms_append (l₁ l₂ : List (F × G)) :
    sumTerms (l₁ ++ l₂) = sumTerms l₁ + sumTerms l₂ := by
  simp [sumTerms]

theorem zipWith_eq_map_zip (f : α → β → G) (l₁ : List α) (l₂ : List β) :
    List.zipWith f l₁ l₂ = (l₁.zip l₂).map fun p => f p.1 p.2 := by
  induction l₁ generalizing l₂ with
  | nil => simp
  | cons x xs ih => cases l₂ <;> simp [ih]

theorem sumTerms_zip (a : List F) (g : List G) : sumTerms (a.zip g) = dotG a g := by
  rw [dotG, zipWith_eq_map_zip]; rfl

theorem inner_product_eq (a b : List F) (h : a.length = b.length) :
    inner_product a b = Except.ok (dotG a b) := by
  rw [inner_product, if_pos h]
  congr 1
  rw [← sumTerms_zip]
  simpa [sumTerms, smul_eq_mul] using foldl_add_eq_sum (fun p : F × F => p.1 * p.2) (a.zip b) 0

theorem dotG_nil_left (g : List G) : dotG ([] : List F) g = 0 := by simp [dotG]

theorem dotG_nil_right (a : List F) : dotG a ([] : List G) = 0 := by simp [dotG]

theorem dotG_cons (c : F) (g : G) (cs : List F) (gs : List G) :
    dotG (c :: cs) (g :: gs) = c • g + dotG cs gs := by simp [dotG]

theorem dotG_append (a a' : List F) (g g' : List G) (h : a.length = g.length) :
    dotG (a ++ a') (g ++ g') = dotG a g + dotG a' g' := by
  induction a generalizing g with
  | nil =>
    cases g with
    | nil => simp [dotG]
    | cons _ _ => simp at h
  | cons x xs ih =>
    cases g with
    | nil => simp at h
    | cons y ys =>
      simp only [List.length_cons, Nat.add_right_cancel_iff] at h
      simp [dotG_cons, List.cons_append, ih _ h, add_assoc]

theorem dotG_map_mul_left (a : List F) (g : List G) (c : F) :
    dotG (a.map fun t => t * c) g = c • dotG a g := by
  induction a generalizing g with
  | nil => simp [dotG]
  | cons x xs ih =>
    cases g with
    | nil => simp [dotG]
    | cons y ys =>
      simp only [List.map_cons, dotG_cons, ih, smul_add]
      rw [mul_comm, mul_smul]

theorem dotG_add_left (a b : List F) (g : List G) (h : a.length = b.length) :
    dotG (List.zipWith (fun p q => p + q) a b) g = dotG a g + dotG b g := by
  induction a generalizing b g with
  | nil => cases b <;> simp_all [dotG]
  | cons x xs ih =>
    cases b with
    | nil => simp at h
    | cons y ys =>
      cases g with
      | nil => simp [dotG]
      | cons z zs =>
        simp only [List.length_cons, Nat.add_right_cancel_iff] at h
        simp only [List.zipWith_cons_cons, dotG_cons, ih _ _ h, add_smul]
        abel

theorem dotG_add_right (a : List F) (g g' : List G) (h : g.length = g'.length) :
    dotG a (List.zipWith (fun p q => p + q) g g') = dotG a g + dotG a g' := by
  induction a generalizing g g' with
  | nil => simp [dotG]
  | cons x xs ih =>
    cases g with
    | nil => cases g' <;> simp_all [dotG]
    | cons y ys =>
      cases g' with
      | nil => simp at h
      | cons z zs =>
        simp only [List.length_cons, Nat.add_right_cancel_iff] at h
        simp only [List.zipWith_cons_cons, dotG_cons, ih _ _ h, smul_add]
        abel

theorem dotG_comb_right (a : List F) (u v : List G) (c d : F) (h : u.length = v.length) :
    dotG a (List.zipWith (fun p q => c • p + d • q) u v)
      = c • dotG a u + d • dotG a v := by
  induction a generalizing u v with
  | nil => simp [dotG]
  | cons x xs ih =>
    cases u with
    | nil => cases v <;> simp_all [dotG]
    | cons y ys =>
      cases v with
      | nil => simp at h
      | cons z zs =>
        simp only [List.length_cons, Nat.add_right_cancel_iff] at h
        simp only [List.zipWith_cons_cons, dotG_cons, ih _ _ h, smul_add]
        rw [smul_comm x c, smul_comm x d]
        abel

theorem dotG_map_mul_right (a u : List F) (c : F) :
    dotG a (u.map fun t => t * c) = c * dotG a u := by
  induction a generalizing u with
  | nil => simp [dotG]
  | cons x xs ih =>
    cases u with
    | nil => simp [dotG]
    | cons y ys =>
      simp only [List.map_cons, dotG_cons, ih, smul_eq_mul]
      ring

theorem dotG_fold_left (x y : List F) (cx cy : F) (g : List G)
    (h : x.length = y.length) :
    dotG (fold_scalars x y cx cy) g = cx • dotG x g + cy • dotG y g := by
  rw [fold_scalars, dotG_add_left _ _ _ (by simpa using h), dotG_map_mul_left,
    dotG_map_mul_left]

end SpecAlg

/-! ### The challenge-product table, functionally -/

section CpSpec

variable {F : Type} [Field F] [DecidableEq F]

/-- Functional form of the challenge-product table: starting from `[1]`,
each challenge pair `(e, inv_e)` doubles the table, the lower copy times
`inv_e`, the upper copy times `e`, interleaved. -/
def cpSpec (cs : List (F × F)) : List F :=
  cs.foldl (fun acc c => acc.flatMap fun v => [v * c.2, v * c.1]) [1]

theorem cpSpec_nil : cpSpec ([] : List (F × F)) = [1] := rfl

theorem cpSpec_foldl_map (cs : List (F × F)) (acc : List F) (x : F) :
    cs.foldl (fun acc c => acc.flatMap fun v => [v * c.2, v * c.1]) (acc.map fun t => t * x)
      = (cs.foldl (fun acc c => acc.flatMap fun v => [v * c.2, v * c.1]) acc).map
          fun t => t * x := by
  induction cs generalizing acc with
  | nil => rfl
  | cons c rest ih =>
    simp only [List.foldl_cons]
    rw [← ih]
    congr 1
    simp only [List.flatMap_map, List.map_flatMap]
    congr 1
    funext v
    simp [mul_right_comm]

theorem cpSpec_foldl_append (cs : List (F × F)) (acc₁ acc₂ : List F) :
    cs.foldl (fun acc c => acc.flatMap fun v => [v * c.2, v * c.1]) (acc₁ ++ acc₂)
      = cs.foldl (fun acc c => acc.flatMap fun v => [v * c.2, v * c.1]) acc₁ ++
        cs.foldl (fun acc c => acc.flatMap fun v => [v * c.2, v * c.1]) acc₂ := by
  induction cs generalizing acc₁ acc₂ with
  | nil => rfl
  | cons c rest ih => simp only [List.foldl_cons, List.flatMap_append, ih]

theorem cpSpec_cons (c : F × F) (cs : List (F × F)) :
    cpSpec (c :: cs) = ((cpSpec cs).map fun t => t * c.2) ++
      ((cpSpec cs).map fun t => t * c.1) := by
  have h : ([1 * c.2, 1 * c.1] : List F) = ([1].map fun t => t * c.2) ++
      ([1].map fun t => t * c.1) := by simp
  rw [cpSpec, List.foldl_cons]
  show List.foldl _ (([1] : List F).flatMap fun v => [v * c.2, v * c.1]) cs = _
  rw [show (([1] : List F).flatMap fun v => [v * c.2, v * c.1]) = [1 * c.2, 1 * c.1] by simp,
    h, cpSpec_foldl_append, cpSpec_foldl_map, cpSpec_foldl_map]
  rfl

theorem cpSpec_snoc (cs : List (F × F)) (c : F × F) :
    cpSpec (cs ++ [c]) = (cpSpec cs).flatMap fun v => [v * c.2, v * c.1] := by
  rw [cpSpec, List.foldl_append]
  rfl

theorem cpSpec_length (cs : List (F × F)) : (cpSpec cs).length = 2 ^ cs.length := by
  induction cs with
  | nil => rfl
  | cons c rest ih =>
    rw [cpSpec_cons]
    simp [ih]
    ring

theorem cpSpec_ne_nil (cs : List (F × F)) : cpSpec cs ≠ [] := by
  intro h
  have h2 := cpSpec_length cs
  rw [h] at h2
  have h3 : 0 < 2 ^ cs.length := Nat.pos_pow_of_pos cs.length (by norm_num)
  simp at h2
  omega

end CpSpec

section Bridge

variable {F : Type} [Field F] [DecidableEq F]
variable {β : Type}

theorem exists_append_two (u : List β) (h : 2 ≤ u.length) :
    ∃ u₃ x y, u = u₃ ++ [x, y] := by
  induction u using List.reverseRecOn with
  | nil => simp at h
  | append_singleton w y ih =>
    cases w using List.reverseRecOn with
    | nil => simp at h
    | append_singleton w' x _ => exact ⟨w', x, y, by simp⟩

theorem set_concat_mid (l₁ : List β) (b : β) (l₂ : List β) (a : β) (n : ℕ)
    (h : n = l₁.length) : (l₁ ++ b :: l₂).set n a = l₁ ++ a :: l₂ := by
  subst h
  rw [List.set_append_right _ _ (le_refl _)]
  simp

theorem getD_concat_mid (l₁ : List β) (b : β) (l₂ : List β) (d : β) (n : ℕ)
    (h : n = l₁.length) : (l₁ ++ b :: l₂).getD n d = b := by
  subst h
  rw [List.getD_append_right _ _ _ _ (le_refl _)]
  simp

theorem cpSlots_spec (c : F × F) :
    ∀ (Tld u rest : List F), Tld ≠ [] → u.length = Tld.length →
    cpSlots c (Tld ++ u ++ rest) (2 * Tld.length - 1)
      = (Tld.flatMap fun v => [v * c.2, v * c.1]) ++ rest := by
  intro Tld
  induction Tld using List.reverseRecOn with
  | nil => intro u rest h; exact absurd rfl h
  | append_singleton l t ih =>
    intro u rest _ hu
    rcases eq_or_ne l [] with hl | hl
    · subst hl
      simp only [List.nil_append, List.length_cons, List.length_nil] at hu
      obtain ⟨x, hx⟩ : ∃ x, u = [x] := by
        cases u with
        | nil => simp at hu
        | cons a w =>
          cases w with
          | nil => exact ⟨a, rfl⟩
          | cons _ _ => simp at hu
      subst hx
      simp [cpSlots, List.set]
    · have hlpos : 1 ≤ l.length := List.length_pos.mpr hl
      have hul : u.length = l.length + 1 := by simpa using hu
      obtain ⟨u₃, x, y, rfl⟩ := exists_append_two u (by omega)
      have hu₃ : u₃.length = l.length - 1 := by
        simp only [List.length_append, List.length_cons, List.length_nil] at hul
        omega
      have harith : 2 * (l ++ [t]).length - 1 = (2 * l.length - 1) + 2 := by
        simp only [List.length_append, List.length_cons, List.length_nil]
        omega
      rw [harith]
      simp only [cpSlots]
      have e1 : (l ++ [t]) ++ (u₃ ++ [x, y]) ++ rest
          = l ++ t :: (u₃ ++ x :: y :: rest) := by simp
      have hget : ((l ++ [t]) ++ (u₃ ++ [x, y]) ++ rest).getD ((2 * l.length - 1 + 2) / 2) 1
          = t := by
        rw [e1]
        exact getD_concat_mid _ _ _ _ _ (by omega)
      rw [hget]
      have e2 : (l ++ [t]) ++ (u₃ ++ [x, y]) ++ rest
          = (l ++ t :: u₃ ++ [x]) ++ y :: rest := by simp
      have hset1 : (((l ++ [t]) ++ (u₃ ++ [x, y]) ++ rest).set (2 * l.length - 1 + 2)
            (t * c.1))
          = (l ++ t :: u₃) ++ x :: (t * c.1) :: rest := by
        rw [e2, set_concat_mid _ _ _ _ _ (by simp; omega)]
        simp
      rw [hset1]
      have hset2 : ((l ++ t :: u₃) ++ x :: (t * c.1) :: rest).set (2 * l.length - 1 + 1)
            (t * c.2)
          = (l ++ t :: u₃) ++ (t * c.2) :: (t * c.1) :: rest := by
        rw [set_concat_mid _ _ _ _ _ (by simp; omega)]
      rw [hset2]
      have e3 : (l ++ t :: u₃) ++ (t * c.2) :: (t * c.1) :: rest
          = l ++ (t :: u₃) ++ ((t * c.2) :: (t * c.1) :: rest) := by simp
      rw [e3, ih (t :: u₃) _ hl (by simp; omega)]
      simp [mul_comm]

end Bridge

section Bridge2

variable {F : Type} [Field F] [DecidableEq F]

theorem cpRounds_spec :
    ∀ (cs done : List (F × F)), done ≠ [] →
    cpRounds cs done.length
        (cpSpec done ++ List.replicate (2 ^ (done.length + cs.length) - 2 ^ done.length) 1)
      = cpSpec (done ++ cs) := by
  intro cs
  induction cs with
  | nil => intro done _; simp [cpRounds]
  | cons c rest ih =>
    intro done hdone
    rw [cpRounds]
    have hle : 2 ^ (done.length + 1) ≤ 2 ^ (done.length + (c :: rest).length) := by
      apply Nat.pow_le_pow_right (by norm_num)
      simp
    have hsplit : List.replicate (2 ^ (done.length + (c :: rest).length) - 2 ^ done.length)
          (1 : F)
        = List.replicate (2 ^ done.length) 1 ++
          List.replicate (2 ^ (done.length + (c :: rest).length) - 2 ^ (done.length + 1)) 1 := by
      rw [← List.replicate_add]
      congr 1
      have h1 : 2 ^ (done.length + 1) = 2 * 2 ^ done.length := by ring
      omega
    rw [hsplit, ← List.append_assoc]
    have hslots : 2 ^ (done.length + 1) - 1 = 2 * (cpSpec done).length - 1 := by
      rw [cpSpec_length]
      have h1 : 2 ^ (done.length + 1) = 2 * 2 ^ done.length := by ring
      omega
    rw [hslots, cpSlots_spec c (cpSpec done) (List.replicate (2 ^ done.length) 1) _
      (cpSpec_ne_nil done) (by simp [cpSpec_length])]
    have hflat : ((cpSpec done).flatMap fun v => [v * c.2, v * c.1]) = cpSpec (done ++ [c]) :=
      (cpSpec_snoc done c).symm
    rw [hflat]
    have hlen2 : (done ++ [c]).length = done.length + 1 := by simp
    have harr : 2 ^ (done.length + (c :: rest).length) - 2 ^ (done.length + 1)
        = 2 ^ ((done ++ [c]).length + rest.length) - 2 ^ (done ++ [c]).length := by
      rw [hlen2]
      congr 2
      simp
      omega
    rw [harr, ← hlen2]
    rw [ih (done ++ [c]) (by simp)]
    simp

theorem challenge_products_eq_cpSpec (cs : List (F × F)) :
    challenge_products cs = cpSpec cs := by
  cases cs with
  | nil => rfl
  | cons c rest =>
    rw [challenge_products]
    have h2 : 2 ≤ 2 ^ (c :: rest).length := by
      have : (1 : ℕ) ≤ (c :: rest).length := by simp
      calc (2 : ℕ) = 2 ^ 1 := by norm_num
        _ ≤ 2 ^ (c :: rest).length := Nat.pow_le_pow_right (by norm_num) this
    have hrep : List.replicate (2 ^ (c :: rest).length) (1 : F)
        = 1 :: 1 :: List.replicate (2 ^ (c :: rest).length - 2) 1 := by
      have h3 : 2 ^ (c :: rest).length = 2 + (2 ^ (c :: rest).length - 2) := by omega
      conv_lhs => rw [h3]
      rw [List.replicate_add]
      rfl
    rw [hrep]
    show cpRounds rest 1 (c.2 :: c.1 :: List.replicate (2 ^ (c :: rest).length - 2) 1) = _
    have hstart : c.2 :: c.1 :: List.replicate (2 ^ (c :: rest).length - 2) (1 : F)
        = cpSpec [c] ++ List.replicate (2 ^ ([c].length + rest.length) - 2 ^ [c].length) 1 := by
      have : cpSpec [c] = [1 * c.2, 1 * c.1] := rfl
      rw [this]
      simp only [one_mul, List.length_cons, List.length_nil]
      have h4 : 2 ^ (1 + rest.length) - 2 ^ 1 = 2 ^ (rest.length + 1) - 2 := by
        rw [Nat.add_comm 1 rest.length]
        norm_num
      rw [h4]
      simp
    rw [hstart]
    have h1 : ([c] : List (F × F)).length = 1 := rfl
    rw [← h1]
    rw [cpRounds_spec rest [c] (by simp)]
    simp

end Bridge2

/-! ### The verifier's round-count computation -/

section LrLen

theorem lrLenGo_ge (n : ℕ) : ∀ (fuel k : ℕ), n ≤ 2 ^ (k + fuel) → n ≤ 2 ^ lrLenGo n fuel k := by
  intro fuel
  induction fuel with
  | zero => intro k h; simpa [lrLenGo] using h
  | succ fuel ih =>
    intro k h
    rw [lrLenGo]
    by_cases hc : 2 ^ k < n
    · rw [if_pos hc]
      have heq : k + (fuel + 1) = (k + 1) + fuel := by omega
      rw [heq] at h
      exact ih (k + 1) h
    · rw [if_neg hc]
      omega
  
theorem lrLenGo_le (n : ℕ) : ∀ (fuel k j : ℕ), k ≤ j → n ≤ 2 ^ j → lrLenGo n fuel k ≤ j := by
  intro fuel
  induction fuel with
  | zero => intro k j hk _; simpa [lrLenGo] using hk
  | succ fuel ih =>
    intro k j hk hj
    rw [lrLenGo]
    by_cases hc : 2 ^ k < n
    · rw [if_pos hc]
      apply ih (k + 1) j _ hj
      have hkj : 2 ^ k < 2 ^ j := lt_of_lt_of_le hc hj
      by_contra hkj2
      push_neg at hkj2
      have hge : 2 ^ j ≤ 2 ^ k := Nat.pow_le_pow_right (by norm_num) (by omega)
      omega
    · rw [if_neg hc]
      exact hk

theorem lrLen_eq_clog (n : ℕ) : lrLen n = Nat.clog 2 n := by
  apply le_antisymm
  · exact lrLenGo_le n n 0 (Nat.clog 2 n) (Nat.zero_le _) (Nat.le_pow_clog (by norm_num) n)
  · rw [← Nat.le_pow_iff_clog_le (by norm_num)]
    apply lrLenGo_ge
    have : n ≤ 2 ^ n := (Nat.lt_two_pow n).le
    simpa using this

theorem lrLen_two_pow (m : ℕ) : lrLen (2 ^ m) = m := by
  rw [lrLen_eq_clog, Nat.clog_pow 2 m (by norm_num)]

theorem lrLen_zero : lrLen 0 = 0 := rfl

end LrLen

/-! ### Round algebra and unfolding lemmas -/

section Round

variable {F : Type} [Field F] [DecidableEq F]
variable {G : Type} [AddCommGroup G] [DecidableEq G] [Module F G]
variable {σ : Type}
variable {α : Type}

theorem multiexp_two (c d : F) (x y : G) :
    multiexp (P.terms [(c, x), (d, y)]) = c • x + d • y := by
  simp [multiexp]

theorem multiexp_four (c1 c2 c3 c4 : F) (x1 x2 x3 x4 : G) :
    multiexp (P.terms [(c1, x1), (c2, x2), (c3, x3), (c4, x4)])
      = c1 • x1 + c2 • x2 + c3 • x3 + c4 • x4 := by
  simp [multiexp, add_assoc]

theorem dotG_fold_right_F (x u v : List F) (cu cv : F) (h : u.length = v.length) :
    dotG x (fold_scalars u v cu cv) = cu * dotG x u + cv * dotG x v := by
  rw [fold_scalars, dotG_add_right _ _ _ (by simpa using h), dotG_map_mul_right,
    dotG_map_mul_right]

theorem round_commit (k : ℕ) (a1 a2 b1 b2 : List F) (g1 g2 h1 h2 : List G) (gg gh : G)
    (e : F) (he : e ≠ 0) (d_l d_r alpha : F)
    (ha1 : a1.length = k) (ha2 : a2.length = k) (hb1 : b1.length = k) (hb2 : b2.length = k)
    (hg1 : g1.length = k) (hg2 : g2.length = k) (hh1 : h1.length = k) (hh2 : h2.length = k) :
    dotG (fold_scalars a1 a2 e e⁻¹) (List.zipWith (fun x y => e⁻¹ • x + e • y) g1 g2)
      + dotG (fold_scalars b1 b2 e⁻¹ e) (List.zipWith (fun x y => e • x + e⁻¹ • y) h1 h2)
      + (dotG (fold_scalars a1 a2 e e⁻¹) (fold_scalars b1 b2 e⁻¹ e)) • gg
      + (alpha + d_l * (e * e) + d_r * (e⁻¹ * e⁻¹)) • gh
    = (e * e) • (dotG a1 g2 + dotG b2 h1 + (dotG a1 b2) • gg + d_l • gh)
      + (dotG (a1 ++ a2) (g1 ++ g2) + dotG (b1 ++ b2) (h1 ++ h2)
          + (dotG (a1 ++ a2) (b1 ++ b2)) • gg + alpha • gh)
      + (e⁻¹ * e⁻¹) • (dotG a2 g1 + dotG b1 h2 + (dotG a2 b1) • gg + d_r • gh) := by
  rw [dotG_append a1 a2 g1 g2 (by omega), dotG_append b1 b2 h1 h2 (by omega),
    dotG_append a1 a2 b1 b2 (by omega)]
  rw [dotG_fold_left _ _ _ _ _ (by omega), dotG_fold_left _ _ _ _ _ (by omega),
    dotG_comb_right _ _ _ _ _ (by omega), dotG_comb_right _ _ _ _ _ (by omega),
    dotG_comb_right _ _ _ _ _ (by omega), dotG_comb_right _ _ _ _ _ (by omega)]
  rw [dotG_fold_left _ _ _ _ _ (by omega)]
  rw [dotG_fold_right_F _ _ _ _ _ (by omega), dotG_fold_right_F _ _ _ _ _ (by omega)]
  have hef : e * e⁻¹ = 1 := mul_inv_cancel₀ he
  have hfe : e⁻¹ * e = 1 := inv_mul_cancel₀ he
  match_scalars
  · field_simp
  · field_simp
  · field_simp
  · field_simp
  · field_simp
  · field_simp
  · field_simp
  · field_simp
  · field_simp
    ring
  · field_simp
    ring

theorem transcript_L_R_ok {T : TO F G σ} {ts : σ} {L R : G} {e : F} {ts' : σ}
    (h : transcript_L_R T ts L R = Except.ok (e, ts')) :
    e ≠ 0 ∧ (e, ts') = T.squeeze (T.writePoint (T.writePoint ts L) R) := by
  rw [transcript_L_R] at h
  by_cases hz : (T.squeeze (T.writePoint (T.writePoint ts L) R)).1 = 0
  · simp [hz] at h
  · simp [hz] at h
    refine ⟨fun he => hz ?_, h.symm⟩
    rw [h, he]

theorem transcript_A_B_ok {T : TO F G σ} {ts : σ} {A B : G} {e : F} {ts' : σ}
    (h : transcript_A_B T ts A B = Except.ok (e, ts')) :
    e ≠ 0 ∧ (e, ts') = T.squeeze (T.writePoint (T.writePoint ts A) B) := by
  rw [transcript_A_B] at h
  by_cases hz : (T.squeeze (T.writePoint (T.writePoint ts A) B)).1 = 0
  · simp [hz] at h
  · simp [hz] at h
    refine ⟨fun he => hz ?_, h.symm⟩
    rw [h, he]

theorem fold_scalars_length (x y : List F) (cx cy : F) :
    (fold_scalars x y cx cy).length = min x.length y.length := by
  simp [fold_scalars]

theorem fold_scalars_eq (x y : List F) (cx cy : F) :
    fold_scalars x y cx cy = List.zipWith (fun p q => cx * p + cy * q) x y := by
  rw [fold_scalars]
  induction x generalizing y with
  | nil => simp
  | cons a as ih =>
    cases y with
    | nil => simp
    | cons c cs => simp [ih, mul_comm]

theorem split_even_fst (v : List α) (k : ℕ) (h : v.length = 2 * k) :
    (split_vector_in_half v).1 = v.take k := by
  have hmid : v.length / 2 + v.length % 2 = k := by omega
  simp [split_vector_in_half, hmid]

theorem split_even_snd (v : List α) (k : ℕ) (h : v.length = 2 * k) :
    (split_vector_in_half v).2 = v.drop k := by
  have hmid : v.length / 2 + v.length % 2 = k := by omega
  simp [split_vector_in_half, hmid]

theorem multiexp_LRterms (a1 : List F) (g2 : List G) (b2 : List F) (h1 : List G)
    (c d : F) (gg gh : G) :
    multiexp (P.terms ((a1.zip g2) ++ (b2.zip h1) ++ [(c, gg), (d, gh)]))
      = dotG a1 g2 + dotG b2 h1 + c • gg + d • gh := by
  rw [multiexp_terms, sumTerms_append, sumTerms_append, sumTerms_zip, sumTerms_zip]
  simp [sumTerms, add_assoc]

end Round

section RU

variable {F : Type} [Field F] [DecidableEq F]
variable {G : Type} [AddCommGroup G] [DecidableEq G] [Module F G]
variable {σ : Type}

theorem proveLoop_round (T : TO F G σ) (rng : ℕ → F) (gg gh : G)
    (fuel i : ℕ) (ts : σ) (a b : List F) (g h : List G) (alpha : F) (Ls Rs : List G)
    (k : ℕ) (hk : 1 ≤ k)
    (ha : a.length = 2 * k) (hb : b.length = 2 * k) (hg : g.length = 2 * k)
    (hh : h.length = 2 * k)
    (L R : G) (e : F) (ts1 : σ)
    (hL : L = multiexp (P.terms (((a.take k).zip (g.drop k)) ++ ((b.drop k).zip (h.take k)) ++
      [(dotG (a.take k) (b.drop k), gg), (rng i, gh)])))
    (hR : R = multiexp (P.terms (((a.drop k).zip (g.take k)) ++ ((b.take k).zip (h.drop k)) ++
      [(dotG (a.drop k) (b.take k), gg), (rng (i + 1), gh)])))
    (htlr : transcript_L_R T ts L R = Except.ok (e, ts1)) :
    proveLoop T rng gg gh (fuel + 1) i ts a b g h alpha Ls Rs
      = proveLoop T rng gg gh fuel (i + 2) ts1
          (List.zipWith (fun al ar => e * al + e⁻¹ * ar) (a.take k) (a.drop k))
          (List.zipWith (fun bl br => e⁻¹ * bl + e * br) (b.take k) (b.drop k))
          (List.zipWith (fun gl gr => e⁻¹ • gl + e • gr) (g.take k) (g.drop k))
          (List.zipWith (fun hl hr => e • hl + e⁻¹ • hr) (h.take k) (h.drop k))
          (alpha + (rng i) * (e * e) + (rng (i + 1)) * (e⁻¹ * e⁻¹))
          (Ls ++ [L]) (Rs ++ [R]) := by
  have hgt : 1 < g.length := by omega
  rw [proveLoop, if_pos hgt]
  rw [split_even_fst a k ha, split_even_snd a k ha, split_even_fst b k hb,
    split_even_snd b k hb, split_even_fst g k hg, split_even_snd g k hg,
    split_even_fst h k hh, split_even_snd h k hh]
  have hcond : (a.take k).length = (g.take k).length ∧
      (a.drop k).length = (g.take k).length ∧ (b.take k).length = (g.take k).length ∧
      (b.drop k).length = (g.take k).length ∧ (g.drop k).length = (g.take k).length ∧
      (h.take k).length = (g.take k).length ∧ (h.drop k).length = (g.take k).length := by
    simp [ha, hb, hg, hh]
    omega
  rw [if_pos hcond]
  have hip1 : inner_product (a.take k) (b.drop k)
      = Except.ok (dotG (a.take k) (b.drop k)) :=
    inner_product_eq _ _ (by simp [ha, hb]; omega)
  have hip2 : inner_product (a.drop k) (b.take k)
      = Except.ok (dotG (a.drop k) (b.take k)) :=
    inner_product_eq _ _ (by simp [ha, hb]; omega)
  simp only [hip1, hip2]
  rw [← hL, ← hR]
  have hngh : next_G_H T ts (g.take k) (g.drop k) (h.take k) (h.drop k) L R
      = Except.ok (e, e⁻¹, e * e, e⁻¹ * e⁻¹,
          List.zipWith (fun x y => multiexp (P.terms [(e⁻¹, x), (e, y)])) (g.take k) (g.drop k),
          List.zipWith (fun x y => multiexp (P.terms [(e, x), (e⁻¹, y)])) (h.take k) (h.drop k),
          ts1) := by
    simp only [next_G_H]
    rw [if_pos (by simp [hg, hh]; omega : (g.take k).length = (g.drop k).length ∧
      (h.take k).length = (h.drop k).length ∧ (g.take k).length = (h.take k).length)]
    rw [htlr]
  simp only [hngh]
  simp only [fold_scalars_eq, multiexp_two]

theorem proveLoop_round_err (T : TO F G σ) (rng : ℕ → F) (gg gh : G)
    (fuel i : ℕ) (ts : σ) (a b : List F) (g h : List G) (alpha : F) (Ls Rs : List G)
    (k : ℕ) (hk : 1 ≤ k)
    (ha : a.length = 2 * k) (hb : b.length = 2 * k) (hg : g.length = 2 * k)
    (hh : h.length = 2 * k)
    (L R : G) (err : Err)
    (hL : L = multiexp (P.terms (((a.take k).zip (g.drop k)) ++ ((b.drop k).zip (h.take k)) ++
      [(dotG (a.take k) (b.drop k), gg), (rng i, gh)])))
    (hR : R = multiexp (P.terms (((a.drop k).zip (g.take k)) ++ ((b.take k).zip (h.drop k)) ++
      [(dotG (a.drop k) (b.take k), gg), (rng (i + 1), gh)])))
    (htlr : transcript_L_R T ts L R = Except.error err) :
    proveLoop T rng gg gh (fuel + 1) i ts a b g h alpha Ls Rs = Except.error err := by
  have hgt : 1 < g.length := by omega
  rw [proveLoop, if_pos hgt]
  rw [split_even_fst a k ha, split_even_snd a k ha, split_even_fst b k hb,
    split_even_snd b k hb, split_even_fst g k hg, split_even_snd g k hg,
    split_even_fst h k hh, split_even_snd h k hh]
  have hcond : (a.take k).length = (g.take k).length ∧
      (a.drop k).length = (g.take k).length ∧ (b.take k).length = (g.take k).length ∧
      (b.drop k).length = (g.take k).length ∧ (g.drop k).length = (g.take k).length ∧
      (h.take k).length = (g.take k).length ∧ (h.drop k).length = (g.take k).length := by
    simp [ha, hb, hg, hh]
    omega
  rw [if_pos hcond]
  have hip1 : inner_product (a.take k) (b.drop k)
      = Except.ok (dotG (a.take k) (b.drop k)) :=
    inner_product_eq _ _ (by simp [ha, hb]; omega)
  have hip2 : inner_product (a.drop k) (b.take k)
      = Except.ok (dotG (a.drop k) (b.take k)) :=
    inner_product_eq _ _ (by simp [ha, hb]; omega)
  simp only [hip1, hip2]
  rw [← hL, ← hR]
  have hngh : next_G_H T ts (g.take k) (g.drop k) (h.take k) (h.drop k) L R
      = Except.error err := by
    simp only [next_G_H]
    rw [if_pos (by simp [hg, hh]; omega : (g.take k).length = (g.drop k).length ∧
      (h.take k).length = (h.drop k).length ∧ (g.take k).length = (h.take k).length)]
    rw [htlr]
  simp only [hngh]

theorem cpSpec_pairs_cons (e0 : F) (es : List F) :
    (e0 :: es).zip ((e0 :: es).map fun x => x⁻¹)
      = (e0, e0⁻¹) :: es.zip (es.map fun x => x⁻¹) := by
  simp

theorem cpSpec_fold_g (e0 : F) (es : List F) (g1 g2 : List G)
    (hlen : (cpSpec (es.zip (es.map fun x => x⁻¹))).length = g1.length)
    (h12 : g1.length = g2.length) :
    dotG (cpSpec (((e0 :: es).zip ((e0 :: es).map fun x => x⁻¹)))) (g1 ++ g2)
      = dotG (cpSpec (es.zip (es.map fun x => x⁻¹)))
          (List.zipWith (fun gl gr => e0⁻¹ • gl + e0 • gr) g1 g2) := by
  rw [cpSpec_pairs_cons, cpSpec_cons]
  rw [dotG_append _ _ _ _ (by simpa using hlen)]
  rw [dotG_map_mul_left, dotG_map_mul_left]
  rw [dotG_comb_right _ _ _ _ _ h12]

theorem cpSpec_fold_h (e0 : F) (es : List F) (h1 h2 : List G)
    (hlen : (cpSpec (es.zip (es.map fun x => x⁻¹))).length = h1.length)
    (h12 : h1.length = h2.length) :
    dotG (cpSpec (((e0 :: es).zip ((e0 :: es).map fun x => x⁻¹)))).reverse (h1 ++ h2)
      = dotG (cpSpec (es.zip (es.map fun x => x⁻¹))).reverse
          (List.zipWith (fun hl hr => e0 • hl + e0⁻¹ • hr) h1 h2) := by
  rw [cpSpec_pairs_cons, cpSpec_cons]
  simp only [List.reverse_append, ← List.map_reverse]
  rw [dotG_append _ _ _ _ (by simpa using hlen)]
  rw [dotG_map_mul_left, dotG_map_mul_left]
  rw [dotG_comb_right _ _ _ _ _ h12]


end RU

section Main

variable {F : Type} [Field F] [DecidableEq F]
variable {G : Type} [AddCommGroup G] [DecidableEq G] [Module F G]
variable {σ : Type}

theorem vChallenges_cons (T : TO F G σ) (ts : σ) (L R : G) (rest : List (G × G))
    (e : F) (ts1 : σ) (es : List F) (ts2 : σ)
    (h1 : transcript_L_R T ts L R = Except.ok (e, ts1))
    (h2 : vChallenges T ts1 rest = Except.ok (es, ts2)) :
    vChallenges T ts ((L, R) :: rest) = Except.ok (e :: es, ts2) := by
  simp [vChallenges, h1, h2]

theorem vChallenges_length (T : TO F G σ) (ps : List (G × G)) (ts : σ)
    (es : List F) (ts2 : σ) (h : vChallenges T ts ps = Except.ok (es, ts2)) :
    es.length = ps.length := by
  induction ps generalizing ts es ts2 with
  | nil =>
    simp [vChallenges] at h
    simp [h.1]
  | cons p rest ih =>
    obtain ⟨L, R⟩ := p
    cases htr : transcript_L_R T ts L R with
    | error er => simp [vChallenges, htr] at h
    | ok q =>
      obtain ⟨e, ts1⟩ := q
      cases hrec : vChallenges T ts1 rest with
      | error er => simp [vChallenges, htr, hrec] at h
      | ok q2 =>
        obtain ⟨es2, ts3⟩ := q2
        simp only [vChallenges, htr, hrec, Except.ok.injEq, Prod.mk.injEq] at h
        rw [← h.1, List.length_cons, List.length_cons, ih ts1 es2 ts3 hrec]

theorem proveLoop_sound (T : TO F G σ) (rng : ℕ → F) (gg gh : G) :
    ∀ (m fuel i : ℕ) (ts : σ) (a b : List F) (g h : List G) (alpha : F)
      (Ls Rs : List G) (pf : WipProof F G) (tsF : σ),
      a.length = 2 ^ m → b.length = 2 ^ m → g.length = 2 ^ m → h.length = 2 ^ m →
      m ≤ fuel →
      proveLoop T rng gg gh fuel i ts a b g h alpha Ls Rs = Except.ok (pf, tsF) →
      ∃ (es : List F) (tsM : σ) (newL newR : List G)
        (afin bfin alphafin r s delta eta e : F),
        pf.L = Ls ++ newL ∧ pf.R = Rs ++ newR ∧
        newL.length = m ∧ newR.length = m ∧ es.length = m ∧
        (∀ x ∈ es, x ≠ 0) ∧ e ≠ 0 ∧
        vChallenges T ts (newL.zip newR) = Except.ok (es, tsM) ∧
        transcript_A_B T tsM pf.A pf.B = Except.ok (e, tsF) ∧
        pf.r_answer = r + afin * e ∧
        pf.s_answer = s + bfin * e ∧
        pf.delta_answer = eta + delta * e + alphafin * (e * e) ∧
        pf.A = r • dotG (cpSpec (es.zip (es.map fun x => x⁻¹))) g
             + s • dotG (cpSpec (es.zip (es.map fun x => x⁻¹))).reverse h
             + ((r * bfin) + (s * afin)) • gg + delta • gh ∧
        pf.B = (r * s) • gg + eta • gh ∧
        afin • dotG (cpSpec (es.zip (es.map fun x => x⁻¹))) g
          + bfin • dotG (cpSpec (es.zip (es.map fun x => x⁻¹))).reverse h
          + (afin * bfin) • gg + alphafin • gh
        = dotG a g + dotG b h + (dotG a b) • gg + alpha • gh
          + dotG (es.map fun x => x * x) newL
          + dotG (es.map fun x => x⁻¹ * x⁻¹) newR := by
  intro m
  induction m with
  | zero =>
    intro fuel i ts a b g h alpha Ls Rs pf tsF ha hb hg hh hfuel hp
    obtain ⟨a0, rfl⟩ := List.length_eq_one.mp (by simpa using ha)
    obtain ⟨b0, rfl⟩ := List.length_eq_one.mp (by simpa using hb)
    obtain ⟨g0, rfl⟩ := List.length_eq_one.mp (by simpa using hg)
    obtain ⟨h0, rfl⟩ := List.length_eq_one.mp (by simpa using hh)
    have hfin : proveFinal T rng gg gh i ts [a0] [b0] [g0] [h0] alpha Ls Rs
        = Except.ok (pf, tsF) := by
      cases fuel with
      | zero => rw [proveLoop, if_neg (by simp)] at hp; exact hp
      | succ f => rw [proveLoop, if_neg (by simp)] at hp; exact hp
    rw [proveFinal] at hfin
    set r := rng i with hr
    set s := rng (i + 1) with hs
    set delta := rng (i + 2) with hdelta
    set eta := rng (i + 3) with heta
    cases htab : transcript_A_B T ts
        (multiexp (P.terms [(r, g0), (s, h0), ((r * b0) + (s * a0), gg), (delta, gh)]))
        (multiexp (P.terms [(r * s, gg), (eta, gh)])) with
    | error err => rw [htab] at hfin; simp at hfin
    | ok q =>
      obtain ⟨e, ts'⟩ := q
      rw [htab] at hfin
      simp only [Except.ok.injEq, Prod.mk.injEq] at hfin
      obtain ⟨hpf, htsF⟩ := hfin
      obtain ⟨he, _⟩ := transcript_A_B_ok htab
      subst htsF
      refine ⟨[], ts, [], [], a0, b0, alpha, r, s, delta, eta, e,
        ?_, ?_, rfl, rfl, rfl, by simp, he, by simp [vChallenges], ?_, ?_, ?_, ?_, ?_, ?_, ?_⟩
      · rw [← hpf]; simp
      · rw [← hpf]; simp
      · rw [← hpf]
        exact htab
      · rw [← hpf]
      · rw [← hpf]
      · rw [← hpf]
      · rw [← hpf]
        show multiexp (P.terms [(r, g0), (s, h0), ((r * b0) + (s * a0), gg), (delta, gh)])
          = _
        rw [multiexp_four]
        simp [cpSpec, dotG]
      · rw [← hpf]
        show multiexp (P.terms [(r * s, gg), (eta, gh)]) = _
        rw [multiexp_two]
      · simp [cpSpec, dotG, smul_eq_mul]
  | succ m ih =>
    intro fuel i ts a b g h alpha Ls Rs pf tsF ha hb hg hh hfuel hp
    have hk : 1 ≤ 2 ^ m := Nat.one_le_two_pow
    have ha2 : a.length = 2 * 2 ^ m := by rw [ha]; ring
    have hb2 : b.length = 2 * 2 ^ m := by rw [hb]; ring
    have hg2 : g.length = 2 * 2 ^ m := by rw [hg]; ring
    have hh2 : h.length = 2 * 2 ^ m := by rw [hh]; ring
    cases fuel with
    | zero => omega
    | succ f =>
      set L0 := multiexp (P.terms (((a.take (2 ^ m)).zip (g.drop (2 ^ m))) ++
        ((b.drop (2 ^ m)).zip (h.take (2 ^ m))) ++
        [(dotG (a.take (2 ^ m)) (b.drop (2 ^ m)), gg), (rng i, gh)])) with hL0
      set R0 := multiexp (P.terms (((a.drop (2 ^ m)).zip (g.take (2 ^ m))) ++
        ((b.take (2 ^ m)).zip (h.drop (2 ^ m))) ++
        [(dotG (a.drop (2 ^ m)) (b.take (2 ^ m)), gg), (rng (i + 1), gh)])) with hR0
      cases htlr : transcript_L_R T ts L0 R0 with
      | error err =>
        rw [proveLoop_round_err T rng gg gh f i ts a b g h alpha Ls Rs (2 ^ m) hk
          ha2 hb2 hg2 hh2 L0 R0 err hL0 hR0 htlr] at hp
        simp at hp
      | ok q =>
        obtain ⟨e0, ts1⟩ := q
        rw [proveLoop_round T rng gg gh f i ts a b g h alpha Ls Rs (2 ^ m) hk
          ha2 hb2 hg2 hh2 L0 R0 e0 ts1 hL0 hR0 htlr] at hp
        obtain ⟨he0, -⟩ := transcript_L_R_ok htlr
        have hla : (List.zipWith (fun al ar => e0 * al + e0⁻¹ * ar)
            (a.take (2 ^ m)) (a.drop (2 ^ m))).length = 2 ^ m := by
          simp [ha2]
          omega
        have hlb : (List.zipWith (fun bl br => e0⁻¹ * bl + e0 * br)
            (b.take (2 ^ m)) (b.drop (2 ^ m))).length = 2 ^ m := by
          simp [hb2]
          omega
        have hlg : (List.zipWith (fun gl gr => e0⁻¹ • gl + e0 • gr)
            (g.take (2 ^ m)) (g.drop (2 ^ m))).length = 2 ^ m := by
          simp [hg2]
          omega
        have hlh : (List.zipWith (fun hl hr => e0 • hl + e0⁻¹ • hr)
            (h.take (2 ^ m)) (h.drop (2 ^ m))).length = 2 ^ m := by
          simp [hh2]
          omega
        obtain ⟨es', tsM, newL', newR', afin, bfin, alphafin, r, s, delta, eta, e,
          hpfL, hpfR, hnl, hnr, hesl, hesnz, hene, hvch, htab, hra, hsa, hda, hA, hB, heq⟩ :=
          ih f (i + 2) ts1 _ _ _ _ _ _ _ _ _ hla hlb hlg hlh (by omega) hp
        have hcplen : (cpSpec (es'.zip (es'.map fun x => x⁻¹))).length
            = (g.take (2 ^ m)).length := by
          rw [cpSpec_length]
          simp [hesl, hg2]
        have hX : dotG (cpSpec (((e0 :: es').zip ((e0 :: es').map fun x => x⁻¹)))) g
            = dotG (cpSpec (es'.zip (es'.map fun x => x⁻¹)))
                (List.zipWith (fun gl gr => e0⁻¹ • gl + e0 • gr)
                  (g.take (2 ^ m)) (g.drop (2 ^ m))) := by
          conv_lhs => rw [← List.take_append_drop (2 ^ m) g]
          exact cpSpec_fold_g e0 es' _ _ hcplen (by simp [hg2]; omega)
        have hcplen2 : (cpSpec (es'.zip (es'.map fun x => x⁻¹))).length
            = (h.take (2 ^ m)).length := by
          rw [cpSpec_length]
          simp [hesl, hh2]
        have hY : dotG (cpSpec (((e0 :: es').zip ((e0 :: es').map fun x => x⁻¹)))).reverse h
            = dotG (cpSpec (es'.zip (es'.map fun x => x⁻¹))).reverse
                (List.zipWith (fun hl hr => e0 • hl + e0⁻¹ • hr)
                  (h.take (2 ^ m)) (h.drop (2 ^ m))) := by
          conv_lhs => rw [← List.take_append_drop (2 ^ m) h]
          exact cpSpec_fold_h e0 es' _ _ hcplen2 (by simp [hh2]; omega)
        refine ⟨e0 :: es', tsM, L0 :: newL', R0 :: newR', afin, bfin, alphafin,
          r, s, delta, eta, e, ?_, ?_, by simp [hnl], by simp [hnr], by simp [hesl],
          ?_, hene, ?_, htab, hra, hsa, hda, ?_, hB, ?_⟩
        · rw [hpfL]; simp
        · rw [hpfR]; simp
        · intro x hx
          rcases List.mem_cons.mp hx with hx0 | hxm
          · rw [hx0]; exact he0
          · exact hesnz _ hxm
        · rw [List.zip_cons_cons]
          exact vChallenges_cons T ts L0 R0 _ e0 ts1 es' tsM htlr hvch
        · rw [hX, hY]
          exact hA
        · rw [hX, hY, heq]
          rw [← fold_scalars_eq, ← fold_scalars_eq]
          rw [round_commit (2 ^ m) (a.take (2 ^ m)) (a.drop (2 ^ m)) (b.take (2 ^ m))
            (b.drop (2 ^ m)) (g.take (2 ^ m)) (g.drop (2 ^ m)) (h.take (2 ^ m))
            (h.drop (2 ^ m)) gg gh e0 he0 (rng i) (rng (i + 1)) alpha
            (by simp [ha2]) (by simp [ha2]; omega) (by simp [hb2]) (by simp [hb2]; omega)
            (by simp [hg2]) (by simp [hg2]; omega) (by simp [hh2]) (by simp [hh2]; omega)]
          rw [List.take_append_drop, List.take_append_drop, List.take_append_drop,
            List.take_append_drop]
          have hLv : dotG (a.take (2 ^ m)) (g.drop (2 ^ m))
              + dotG (b.drop (2 ^ m)) (h.take (2 ^ m))
              + (dotG (a.take (2 ^ m)) (b.drop (2 ^ m))) • gg + (rng i) • gh = L0 := by
            rw [hL0, multiexp_LRterms]
          have hRv : dotG (a.drop (2 ^ m)) (g.take (2 ^ m))
              + dotG (b.take (2 ^ m)) (h.drop (2 ^ m))
              + (dotG (a.drop (2 ^ m)) (b.take (2 ^ m))) • gg + (rng (i + 1)) • gh = R0 := by
            rw [hR0, multiexp_LRterms]
          rw [hLv, hRv]
          simp only [List.map_cons, dotG_cons]
          abel

end Main

/-! ### Verifier-side accumulator sums -/

section VerifierSums

variable {F : Type} [Field F] [DecidableEq F]
variable {G : Type} [AddCommGroup G] [DecidableEq G] [Module F G]
variable {σ : Type}

theorem sumTerms_scale (l : List (F × G)) (c : F) :
    sumTerms (l.map fun sc => (sc.1 * c, sc.2)) = c • sumTerms l := by
  induction l with
  | nil => simp [sumTerms]
  | cons x xs ih =>
    simp only [List.map_cons, sumTerms, List.sum_cons] at ih ⊢
    rw [smul_add, ← ih, show x.1 * c = c * x.1 from mul_comm _ _, mul_smul]

theorem sumTerms_range (cache : List F) (gs : List G) (f : F → F)
    (h : cache.length = gs.length) :
    sumTerms ((List.range gs.length).map fun i => (f (cache.getD i 0), gs.getD i 0))
      = dotG (cache.map f) gs := by
  induction cache generalizing gs with
  | nil =>
    cases gs with
    | nil => simp [sumTerms, dotG]
    | cons _ _ => simp at h
  | cons x xs ih =>
    cases gs with
    | nil => simp at h
    | cons y ys =>
      simp only [List.length_cons, Nat.add_right_cancel_iff] at h
      show sumTerms ((List.range (ys.length + 1)).map _) = _
      rw [List.range_succ_eq_map]
      simp only [List.map_cons, List.map_map]
      rw [sumTerms, List.map_cons, List.sum_cons]
      have hrw : ((List.range ys.length).map
            ((fun i => (f ((x :: xs).getD i 0), (y :: ys).getD i 0)) ∘ (· + 1)))
          = (List.range ys.length).map fun i => (f (xs.getD i 0), ys.getD i 0) := by
        apply List.map_congr_left
        intro i _
        simp
      rw [hrw]
      have := ih ys h
      rw [sumTerms] at this
      rw [this]
      simp [dotG_cons]

theorem getD_reverse (l : List F) (i : ℕ) (hi : i < l.length) :
    l.reverse.getD i 0 = l.getD (l.length - 1 - i) 0 := by
  rw [List.getD_eq_getElem?_getD, List.getD_eq_getElem?_getD]
  rw [List.getElem?_eq_getElem (by simpa using hi), List.getElem?_eq_getElem (by omega)]
  simp [List.getElem_reverse]

theorem sumTerms_flatPairs (es : List F) (Lv Rv : List G)
    (hL : es.length = Lv.length) (hR : es.length = Rv.length) :
    sumTerms (((es.zip (es.map fun x => x⁻¹)).zip (Lv.zip Rv)).flatMap
        fun x => [(x.1.1 * x.1.1, x.2.1), (x.1.2 * x.1.2, x.2.2)])
      = dotG (es.map fun x => x * x) Lv + dotG (es.map fun x => x⁻¹ * x⁻¹) Rv := by
  induction es generalizing Lv Rv with
  | nil => simp [sumTerms, dotG]
  | cons x xs ih =>
    cases Lv with
    | nil => simp at hL
    | cons l ls =>
      cases Rv with
      | nil => simp at hR
      | cons r rs =>
        simp only [List.length_cons, Nat.add_right_cancel_iff] at hL hR
        simp only [List.map_cons, List.zip_cons_cons, List.flatMap_cons]
        rw [sumTerms_append, ih ls rs hL hR]
        simp only [List.map_cons, dotG_cons, sumTerms, List.sum_cons, List.sum_nil,
          List.map_nil]
        abel

end VerifierSums

section Completeness

variable {F : Type} [Field F] [DecidableEq F]
variable {G : Type} [AddCommGroup G] [DecidableEq G] [Module F G]
variable {σ : Type}

/-- The term list of the opening relation
`Σ aᵢ·g_boldᵢ + Σ bᵢ·h_boldᵢ + ⟨a,b⟩·generator_g + alpha·generator_h`. -/
def openingTerms (a b : List F) (alpha : F) (gs hs : List G) (gg gh : G) : List (F × G) :=
  (a.zip gs) ++ (b.zip hs) ++ [(dotG a b, gg), (alpha, gh)]

theorem gsTerms_eq (cache : List F) (gs : List G) (re : F) (hlen : cache.length = gs.length) :
    sumTerms ((List.range gs.length).map fun i => (cache.getD i 0 * re, gs.getD i 0))
      = re • dotG cache gs := by
  rw [show ((List.range gs.length).map fun i => (cache.getD i 0 * re, gs.getD i 0))
      = (List.range gs.length).map fun i => ((fun t => t * re) (cache.getD i 0), gs.getD i 0)
    from rfl]
  rw [sumTerms_range cache gs (fun t => t * re) hlen, dotG_map_mul_left]

theorem hsTerms_eq (cache : List F) (hs : List G) (se : F) (hlen : cache.length = hs.length) :
    sumTerms ((List.range hs.length).map
        fun i => (se * cache.getD (cache.length - 1 - i) 0, hs.getD i 0))
      = se • dotG cache.reverse hs := by
  have hmap : ((List.range hs.length).map
        fun i => (se * cache.getD (cache.length - 1 - i) 0, hs.getD i 0))
      = (List.range hs.length).map
          fun i => ((fun t => se * t) (cache.reverse.getD i 0), hs.getD i 0) := by
    apply List.map_congr_left
    intro i hi
    rw [getD_reverse _ _ (by rw [hlen]; exact List.mem_range.mp hi)]
  rw [hmap, sumTerms_range _ _ _ (by simp [hlen])]
  rw [show (cache.reverse.map fun t => se * t) = cache.reverse.map fun t => t * se by
    simp [mul_comm]]
  rw [dotG_map_mul_left]

/-- Completeness of the WIP argument: for a witness and generators of
power-of-two length with `P` given as the multiexponentiation of the opening
relation, a successful `prove` run yields a proof that `verify` (on a fresh
transcript with the same start state) accepts. -/
theorem wip_completeness (T : TO F G σ) (rng : ℕ → F) (ts : σ) (m : ℕ)
    (a b : List F) (gs hs : List G) (gg gh : G) (alpha : F)
    (pf : WipProof F G) (tsF : σ)
    (ha : a.length = 2 ^ m) (hb : b.length = 2 ^ m)
    (hg : gs.length = 2 ^ m) (hh : hs.length = 2 ^ m)
    (hp : prove T rng ts ⟨a, b, alpha⟩ gs hs gg gh
        (P.point (multiexp (P.terms (openingTerms a b alpha gs hs gg gh))))
      = Except.ok (pf, tsF)) :
    verify T ts pf gs hs gg gh
        (P.point (multiexp (P.terms (openingTerms a b alpha gs hs gg gh))))
      = Except.ok () := by
  simp only [prove, openingTerms] at hp
  rw [inner_product_eq a b (by omega)] at hp
  simp only [if_pos rfl] at hp
  rw [if_pos (show a.length = b.length by omega)] at hp
  rw [if_pos (show gs.length = a.length by omega)] at hp
  obtain ⟨es, tsM, newL, newR, afin, bfin, alphafin, r, s, delta, eta, e,
      hpfL, hpfR, hnl, hnr, hesl, hesnz, hene, hvch, htab, hra, hsa, hda, hA, hB, heq⟩ :=
    proveLoop_sound T rng gg gh m gs.length 0 ts a b gs hs alpha [] [] pf tsF
      ha hb hg hh (by rw [hg]; exact (Nat.lt_two_pow m).le) hp
  simp only [List.nil_append] at hpfL hpfR
  simp only [verify, verifyAcc]
  rw [if_pos (show pf.L.length = lrLen gs.length ∧ pf.R.length = lrLen gs.length ∧
      gs.length = 2 ^ lrLen gs.length by
    rw [hg, lrLen_two_pow, hpfL, hpfR, hnl, hnr]
    exact ⟨rfl, rfl, rfl⟩)]
  rw [hpfL, hpfR]
  simp only [hvch]
  simp only [htab]
  have hguard : gs.length ≤ hs.length := by omega
  simp only [if_pos hguard]
  rw [challenge_products_eq_cpSpec]
  set cache := cpSpec (es.zip (es.map fun e => e⁻¹)) with hcache
  have hcachelen : cache.length = 2 ^ m := by
    rw [hcache, cpSpec_length]
    simp [hesl]
  suffices hfinal : multiexp (P.terms
      ((((1, multiexp (P.terms ((a.zip gs) ++ (b.zip hs) ++ [(dotG a b, gg), (alpha, gh)])))
          :: ((es.zip (es.map fun e => e⁻¹)).zip (newL.zip newR)).flatMap
            (fun x => [(x.1.1 * x.1.1, x.2.1), (x.1.2 * x.1.2, x.2.2)])).map
          (fun sc => (sc.1 * -(e * e), sc.2)))
        ++ (List.range gs.length).map (fun i => (cache.getD i 0 * (pf.r_answer * e), gs.getD i 0))
        ++ (List.range gs.length).map (fun i =>
            ((pf.s_answer * e) * cache.getD (cache.length - 1 - i) 0, hs.getD i 0))
        ++ [(-e, pf.A), (pf.r_answer * pf.s_answer, gg), (pf.delta_answer, gh), (-1, pf.B)]))
      = 0 by
    simp only [openingTerms, List.singleton_append] at hfinal ⊢
    rw [if_pos hfinal]
  have hptv : multiexp (P.terms ((a.zip gs) ++ (b.zip hs) ++ [(dotG a b, gg), (alpha, gh)]))
      = dotG a gs + dotG b hs + (dotG a b) • gg + alpha • gh := multiexp_LRterms a gs b hs _ _ gg gh
  have hcommit : dotG a gs + dotG b hs + (dotG a b) • gg + alpha • gh
      = afin • dotG (cpSpec (es.zip (es.map fun x => x⁻¹))) gs
        + bfin • dotG (cpSpec (es.zip (es.map fun x => x⁻¹))).reverse hs
        + (afin * bfin) • gg + alphafin • gh
        - dotG (es.map fun x => x * x) newL - dotG (es.map fun x => x⁻¹ * x⁻¹) newR := by
    rw [heq]
    abel
  rw [multiexp_terms, sumTerms_append, sumTerms_append, sumTerms_append]
  rw [sumTerms_scale]
  rw [show ((1 : F), multiexp (P.terms ((a.zip gs) ++ (b.zip hs) ++
        [(dotG a b, gg), (alpha, gh)])))
      :: ((es.zip (es.map fun e => e⁻¹)).zip (newL.zip newR)).flatMap
        (fun x => [(x.1.1 * x.1.1, x.2.1), (x.1.2 * x.1.2, x.2.2)])
    = [((1 : F), multiexp (P.terms ((a.zip gs) ++ (b.zip hs) ++
        [(dotG a b, gg), (alpha, gh)])))] ++
      ((es.zip (es.map fun e => e⁻¹)).zip (newL.zip newR)).flatMap
        (fun x => [(x.1.1 * x.1.1, x.2.1), (x.1.2 * x.1.2, x.2.2)]) from rfl]
  rw [sumTerms_append]
  rw [sumTerms_flatPairs es newL newR (by omega) (by omega)]
  rw [gsTerms_eq cache gs (pf.r_answer * e) (by rw [hcachelen, hg])]
  rw [show (List.range gs.length) = (List.range hs.length) from by rw [hg, hh]]
  rw [hsTerms_eq cache hs (pf.s_answer * e) (by rw [hcachelen, hh])]
  rw [hra, hsa, hda, hA, hB]
  rw [hptv, hcommit]
  rw [hcache]
  simp only [sumTerms, List.map_cons, List.map_nil, List.sum_cons, List.sum_nil]
  match_scalars <;> ring

end Completeness

/-! ### Concrete instances for witnesses and counterexamples -/

deriving instance DecidableEq for Except

instance : Fact (Nat.Prime 5) := ⟨by norm_num⟩

instance : Fact (Nat.Prime 7) := ⟨by norm_num⟩

/-- A deterministic transcript over `ZMod 5` whose squeezed challenges are
all `1`, used for concrete protocol runs. -/
def wT : TO (ZMod 5) (ZMod 5) Unit := ⟨fun s _ => s, fun _ => (1, ())⟩

/-- Witness for the completeness theorem: a full `prove`/`verify` round trip
on a concrete one-element witness over `ZMod 5`. -/
theorem wip_completeness_witness :
    verify wT () ⟨[], [], 4, 2, 2, 4, 3⟩ [1] [2] 3 4
      (P.point (multiexp (P.terms (openingTerms ([1] : List (ZMod 5)) [2] 1 [1] [2] 3 4))))
      = Except.ok () :=
  wip_completeness wT (fun n => ((n : ZMod 5) + 1)) () 0 [1] [2] [1] [2] 3 4 1
    ⟨[], [], 4, 2, 2, 4, 3⟩ () (by decide) (by decide) (by decide) (by decide) (by decide)

/-! ### Error-path lemmas for the verifier -/

section VerifyErrors

variable {F : Type} [Field F] [DecidableEq F]
variable {G : Type} [AddCommGroup G] [DecidableEq G] [Module F G]
variable {σ : Type}

theorem transcript_L_R_error {T : TO F G σ} {ts : σ} {L R : G} {er : Err}
    (h : transcript_L_R T ts L R = Except.error er) : er = Err.zeroChallenge := by
  rw [transcript_L_R] at h
  by_cases hz : (T.squeeze (T.writePoint (T.writePoint ts L) R)).1 = 0 <;> simp [hz] at h
  exact h.symm

theorem transcript_A_B_error {T : TO F G σ} {ts : σ} {A B : G} {er : Err}
    (h : transcript_A_B T ts A B = Except.error er) : er = Err.zeroChallenge := by
  rw [transcript_A_B] at h
  by_cases hz : (T.squeeze (T.writePoint (T.writePoint ts A) B)).1 = 0 <;> simp [hz] at h
  exact h.symm

theorem vChallenges_error {T : TO F G σ} :
    ∀ {l : List (G × G)} {ts : σ} {er : Err},
    vChallenges T ts l = Except.error er → er = Err.zeroChallenge := by
  intro l
  induction l with
  | nil => intro ts er h; simp [vChallenges] at h
  | cons x rest ih =>
    intro ts er h
    obtain ⟨L, R⟩ := x
    rw [vChallenges] at h
    cases htlr : transcript_L_R T ts L R with
    | error e2 =>
      rw [htlr] at h
      simp at h
      rw [← h]
      exact transcript_L_R_error htlr
    | ok q =>
      rw [htlr] at h
      obtain ⟨e, ts1⟩ := q
      simp at h
      cases hrec : vChallenges T ts1 rest with
      | error e3 =>
        rw [hrec] at h
        simp at h
        rw [← h]
        exact ih hrec
      | ok q2 =>
        rw [hrec] at h
        simp at h

theorem verifyAcc_error_cases {T : TO F G σ} {ts : σ} {pf : WipProof F G}
    {gs hs : List G} {gg gh : G} {p : P F G} {er : Err}
    (h : verifyAcc T ts pf gs hs gg gh p = Except.error er) :
    er = Err.entryLen ∨ er = Err.zeroChallenge ∨ er = Err.indexOOB := by
  rw [verifyAcc.eq_def] at h
  by_cases hc : pf.L.length = lrLen gs.length ∧ pf.R.length = lrLen gs.length ∧
      gs.length = 2 ^ lrLen gs.length
  · rw [if_pos hc] at h
    cases hv : vChallenges T ts (pf.L.zip pf.R) with
    | error e2 =>
      rw [hv] at h
      simp at h
      right
      rw [← h]
      exact Or.inl (vChallenges_error hv)
    | ok q =>
      rw [hv] at h
      obtain ⟨es, ts1⟩ := q
      simp only at h
      cases htab : transcript_A_B T ts1 pf.A pf.B with
      | error e3 =>
        rw [htab] at h
        simp at h
        right
        rw [← h]
        exact Or.inl (transcript_A_B_error htab)
      | ok q2 =>
        rw [htab] at h
        obtain ⟨e, ts2⟩ := q2
        simp only at h
        by_cases hgd : gs.length ≤ hs.length
        · rw [if_pos hgd] at h
          simp at h
        · rw [if_neg hgd] at h
          simp only [Except.error.injEq] at h
          right; right
          exact h.symm
  · rw [if_neg hc] at h
    simp at h
    left
    exact h.symm

theorem entry_cond_iff (n lL lR : ℕ) :
    (lL = lrLen n ∧ lR = lrLen n ∧ n = 2 ^ lrLen n)
      ↔ (lL = Nat.clog 2 n ∧ lR = Nat.clog 2 n ∧ n = 2 ^ lL) := by
  rw [lrLen_eq_clog]
  constructor
  · rintro ⟨h1, h2, h3⟩
    exact ⟨h1, h2, by rw [h1]; exact h3⟩
  · rintro ⟨h1, h2, h3⟩
    exact ⟨h1, h2, by rw [← h1]; exact h3⟩

/-- Fidelity of the index-panic model: with `generators_h` shorter than
`generators_g` (a case no check in `verify` excludes), the h-loop's
`generators_h[i]` access goes out of bounds — the Rust program panics and
the model errors with `Err.indexOOB`. -/
theorem verify_h_short_oob :
    verify wT () ⟨[], [], 0, 0, 0, 0, 0⟩ [1] [] 0 0 (P.terms [])
      = Except.error Err.indexOOB := by decide

end VerifyErrors

/-! ### Claim theorems: challenge-product table, verifier result semantics -/

section ClaimsA

variable {F : Type} [Field F] [DecidableEq F]
variable {G : Type} [AddCommGroup G] [DecidableEq G] [Module F G]
variable {σ : Type}

/-- C2 (counterexample): with the concrete challenges `e0 = 2`, `e1 = 3`
over `ZMod 7` (inverses `4` and `5`), the table produced by
`challenge_products` differs from the claimed slot order
`[inv_e0·inv_e1, e0·inv_e1, inv_e0·e1, e0·e1]`. -/
theorem challenge_products_slot_cex :
    challenge_products [((2 : ZMod 7), 4), ((3 : ZMod 7), 5)]
      ≠ [4 * 5, 2 * 5, 4 * 3, 2 * 3] := by decide

/-- C2 (amended): for two rounds with challenge/inverse pairs
`(e0, inv_e0)`, `(e1, inv_e1)`, `challenge_products` returns
`[inv_e0·inv_e1, inv_e0·e1, e0·inv_e1, e0·e1]` — the first-round challenge
selects the upper half of the table and the second-round challenge the odd
slots (slots 1 and 2 are the transpose of the claimed order). -/
theorem challenge_products_two_rounds (e0 i0 e1 i1 : F) :
    challenge_products [(e0, i0), (e1, i1)] = [i0 * i1, i0 * e1, e0 * i1, e0 * e1] := by
  rw [challenge_products_eq_cpSpec]
  show ((([(1 : F)].flatMap fun v => [v * i0, v * e0]).flatMap
    fun v => [v * i1, v * e1])) = _
  simp [mul_comm]

/-- C3 (counterexample): an invalid proof makes `verify` abort with the
`finalCheck` panic (the `assert_eq!` at the end of `verify`), not return an
ordinary boolean rejection: on this concrete input the result is
`Except.error Err.finalCheck`, which models a Rust panic. -/
theorem verify_reject_is_panic_cex :
    verify wT () ⟨[], [], 0, 0, 0, 0, 0⟩ [1] [1] 0 0 (P.point 1)
      = Except.error Err.finalCheck := by decide

/-- C3 (amended): `verify` returns normally exactly when the final
accumulated multiexponentiation is the group identity, and otherwise panics
(modelled as `Except.error Err.finalCheck`); rejection is an abort, not a
returned boolean. -/
theorem verify_accept_iff (T : TO F G σ) (ts : σ) (pf : WipProof F G)
    (gs hs : List G) (gg gh : G) (p : P F G) :
    (verify T ts pf gs hs gg gh p = Except.ok ()
      ↔ ∃ mv, verifyAcc T ts pf gs hs gg gh p = Except.ok mv
          ∧ multiexp (P.terms mv) = 0)
    ∧ (verify T ts pf gs hs gg gh p = Except.error Err.finalCheck
      ↔ ∃ mv, verifyAcc T ts pf gs hs gg gh p = Except.ok mv
          ∧ multiexp (P.terms mv) ≠ 0) := by
  cases hv : verifyAcc T ts pf gs hs gg gh p with
  | error er =>
    rw [verify]
    simp only [hv]
    have her := verifyAcc_error_cases hv
    constructor
    · constructor
      · intro h; simp at h
      · rintro ⟨mv, hmv, -⟩; simp at hmv
    · constructor
      · intro h
        simp only [Except.error.injEq] at h
        rcases her with h1 | h1 | h1 <;> rw [h1] at h <;> simp at h
      · rintro ⟨mv, hmv, -⟩; simp at hmv
  | ok mv =>
    rw [verify]
    simp only [hv]
    by_cases hz : multiexp (P.terms mv) = 0
    · rw [if_pos hz]
      exact ⟨⟨fun _ => ⟨mv, rfl, hz⟩, fun _ => rfl⟩,
        ⟨fun h => by simp at h, fun ⟨mv2, hmv2, hne⟩ => by
          simp only [Except.ok.injEq] at hmv2
          rw [← hmv2] at hne
          exact absurd hz hne⟩⟩
    · rw [if_neg hz]
      exact ⟨⟨fun h => by simp at h, fun ⟨mv2, hmv2, hze⟩ => by
          simp only [Except.ok.injEq] at hmv2
          rw [← hmv2] at hze
          exact absurd hze hz⟩,
        ⟨fun _ => ⟨mv, rfl, hz⟩, fun _ => rfl⟩⟩

/-- C5: `verify` fails at its entry length check exactly when `L.len()` or
`R.len()` differs from `⌈log2(generators_g.len())⌉` or `generators_g.len()`
is not `2^(round count)`; when all three conditions hold it proceeds past
the check (any later failure is a zero challenge or the final
multiexponentiation check, never `entryLen`). -/
theorem verify_entry_check (T : TO F G σ) (ts : σ) (pf : WipProof F G)
    (gs hs : List G) (gg gh : G) (p : P F G) :
    verify T ts pf gs hs gg gh p = Except.error Err.entryLen
      ↔ ¬(pf.L.length = Nat.clog 2 gs.length ∧ pf.R.length = Nat.clog 2 gs.length ∧
          gs.length = 2 ^ pf.L.length) := by
  rw [← entry_cond_iff]
  constructor
  · intro h hc
    rw [verify, verifyAcc.eq_def] at h
    rw [if_pos hc] at h
    cases hv : vChallenges T ts (pf.L.zip pf.R) with
    | error e2 =>
      rw [hv] at h
      simp only at h
      have := vChallenges_error hv
      simp only [Except.error.injEq] at h
      rw [this] at h
      simp at h
    | ok q =>
      rw [hv] at h
      obtain ⟨es, ts1⟩ := q
      simp only at h
      cases htab : transcript_A_B T ts1 pf.A pf.B with
      | error e3 =>
        rw [htab] at h
        simp only at h
        have := transcript_A_B_error htab
        simp only [Except.error.injEq] at h
        rw [this] at h
        simp at h
      | ok q2 =>
        rw [htab] at h
        obtain ⟨e, ts2⟩ := q2
        simp only at h
        by_cases hgd : gs.length ≤ hs.length
        · rw [if_pos hgd] at h
          simp only at h
          split at h <;> simp at h
        · rw [if_neg hgd] at h
          simp at h
  · intro hc
    rw [verify, verifyAcc.eq_def, if_neg hc]

/-- C10: `verify` rejects an empty generator vector unconditionally: with
`generators_g = []` the entry check computes round count `0` and demands
`0 = 2^0 = 1`, so every proof fails with the entry length error. -/
theorem verify_empty_generators (T : TO F G σ) (ts : σ) (pf : WipProof F G)
    (hs : List G) (gg gh : G) (p : P F G) :
    verify T ts pf [] hs gg gh p = Except.error Err.entryLen := by
  rw [verify, verifyAcc.eq_def]
  rw [if_neg (by
    rintro ⟨-, -, h3⟩
    simp [lrLen, lrLenGo] at h3)]

end ClaimsA

section ClaimsB

variable {F : Type} [Field F] [DecidableEq F]
variable {G : Type} [AddCommGroup G] [DecidableEq G] [Module F G]
variable {σ : Type}
variable {α : Type}

/-- C4: round folding asymmetry.  In a folding round of `prove` (working
length `2k`, challenge `e` from the transcript over `(L, R)`), the
generators fold as `g_bold_i ↦ e⁻¹·g_left_i + e·g_right_i` and
`h_bold_i ↦ e·h_left_i + e⁻¹·h_right_i`, while the witness folds as
`a_i ↦ e·a_left_i + e⁻¹·a_right_i` and `b_i ↦ e⁻¹·b_left_i + e·b_right_i`
— the challenge/inverse assignment for `h_bold` and `b` is opposite to that
for `g_bold` and `a`. -/
theorem wip_fold_asymmetry (T : TO F G σ) (rng : ℕ → F) (gg gh : G)
    (fuel i : ℕ) (ts : σ) (a b : List F) (g h : List G) (alpha : F) (Ls Rs : List G)
    (k : ℕ) (hk : 1 ≤ k)
    (ha : a.length = 2 * k) (hb : b.length = 2 * k) (hg : g.length = 2 * k)
    (hh : h.length = 2 * k)
    (L R : G) (e : F) (ts1 : σ)
    (hL : L = multiexp (P.terms (((a.take k).zip (g.drop k)) ++ ((b.drop k).zip (h.take k)) ++
      [(dotG (a.take k) (b.drop k), gg), (rng i, gh)])))
    (hR : R = multiexp (P.terms (((a.drop k).zip (g.take k)) ++ ((b.take k).zip (h.drop k)) ++
      [(dotG (a.drop k) (b.take k), gg), (rng (i + 1), gh)])))
    (htlr : transcript_L_R T ts L R = Except.ok (e, ts1)) :
    proveLoop T rng gg gh (fuel + 1) i ts a b g h alpha Ls Rs
      = proveLoop T rng gg gh fuel (i + 2) ts1
          (List.zipWith (fun al ar => e * al + e⁻¹ * ar) (a.take k) (a.drop k))
          (List.zipWith (fun bl br => e⁻¹ * bl + e * br) (b.take k) (b.drop k))
          (List.zipWith (fun gl gr => e⁻¹ • gl + e • gr) (g.take k) (g.drop k))
          (List.zipWith (fun hl hr => e • hl + e⁻¹ • hr) (h.take k) (h.drop k))
          (alpha + (rng i) * (e * e) + (rng (i + 1)) * (e⁻¹ * e⁻¹))
          (Ls ++ [L]) (Rs ++ [R]) :=
  proveLoop_round T rng gg gh fuel i ts a b g h alpha Ls Rs k hk ha hb hg hh L R e ts1
    hL hR htlr

end ClaimsB

/-- The random stream used by concrete witness runs. -/
def rngW : ℕ → ZMod 5 := fun n => (n : ZMod 5) + 1

/-- Concrete round inputs for the folding-asymmetry witness. -/
def Lw : ZMod 5 := multiexp (P.terms (((([1, 2] : List (ZMod 5)).take 1).zip (([1, 2] : List (ZMod 5)).drop 1)) ++
  ((([3, 4] : List (ZMod 5)).drop 1).zip (([3, 4] : List (ZMod 5)).take 1)) ++
  [(dotG (([1, 2] : List (ZMod 5)).take 1) (([3, 4] : List (ZMod 5)).drop 1), 2), (rngW 0, 3)]))

/-- Concrete round inputs for the folding-asymmetry witness. -/
def Rw : ZMod 5 := multiexp (P.terms (((([1, 2] : List (ZMod 5)).drop 1).zip (([1, 2] : List (ZMod 5)).take 1)) ++
  ((([3, 4] : List (ZMod 5)).take 1).zip (([3, 4] : List (ZMod 5)).drop 1)) ++
  [(dotG (([1, 2] : List (ZMod 5)).drop 1) (([3, 4] : List (ZMod 5)).take 1), 2), (rngW 1, 3)]))

/-- Witness for the folding-asymmetry theorem at a concrete `2 → 1` round. -/
theorem wip_fold_asymmetry_witness :
    ((1 : ℕ) ≤ 1 ∧ ([1, 2] : List (ZMod 5)).length = 2 * 1 ∧
      ([3, 4] : List (ZMod 5)).length = 2 * 1 ∧
      ([1, 2] : List (ZMod 5)).length = 2 * 1 ∧
      ([3, 4] : List (ZMod 5)).length = 2 * 1 ∧
      transcript_L_R wT () Lw Rw = Except.ok (1, ())) ∧
    proveLoop wT rngW 2 3 (0 + 1) 0 () [1, 2] [3, 4] [1, 2] [3, 4] 0 [] []
      = proveLoop wT rngW 2 3 0 (0 + 2) ()
          (List.zipWith (fun al ar => (1 : ZMod 5) * al + (1 : ZMod 5)⁻¹ * ar)
            (([1, 2] : List (ZMod 5)).take 1) (([1, 2] : List (ZMod 5)).drop 1))
          (List.zipWith (fun bl br => (1 : ZMod 5)⁻¹ * bl + (1 : ZMod 5) * br)
            (([3, 4] : List (ZMod 5)).take 1) (([3, 4] : List (ZMod 5)).drop 1))
          (List.zipWith (fun gl gr => (1 : ZMod 5)⁻¹ • gl + (1 : ZMod 5) • gr)
            (([1, 2] : List (ZMod 5)).take 1) (([1, 2] : List (ZMod 5)).drop 1))
          (List.zipWith (fun hl hr => (1 : ZMod 5) • hl + (1 : ZMod 5)⁻¹ • hr)
            (([3, 4] : List (ZMod 5)).take 1) (([3, 4] : List (ZMod 5)).drop 1))
          (0 + (rngW 0) * ((1 : ZMod 5) * 1) + (rngW 1) * ((1 : ZMod 5)⁻¹ * (1 : ZMod 5)⁻¹))
          ([] ++ [Lw]) ([] ++ [Rw]) :=
  ⟨⟨le_refl 1, by decide, by decide, by decide, by decide, by decide⟩,
    wip_fold_asymmetry wT rngW 2 3 0 0 () [1, 2] [3, 4] [1, 2] [3, 4] 0 [] [] 1
      (le_refl 1) (by decide) (by decide) (by decide) (by decide) Lw Rw 1 ()
      (by decide) (by decide) (by decide)⟩

/-- A rigged transcript double over `ZMod 5` whose squeezed challenges are
all zero. -/
def zT : TO (ZMod 5) (ZMod 5) Unit := ⟨fun s _ => s, fun _ => (0, ())⟩

/-- C6: a squeezed zero challenge is fatal.  The two transcript helpers
fail with the zero-challenge error exactly when the squeezed scalar is the
additive identity and return the squeezed scalar/state exactly when it is
not; with a transcript double rigged to emit zero, `prove` and `verify`
fail with the zero-challenge error both in a folding round (`n = 2`, after
writing `L`, `R`) and in the final round (`n = 1`, after writing `A`, `B`). -/
theorem zero_challenge_abort :
    (∀ (F' G' σ' : Type) [Field F'] [DecidableEq F'] [AddCommGroup G']
        [DecidableEq G'] [Module F' G'] (T : TO F' G' σ') (ts : σ') (L R : G'),
      (transcript_L_R T ts L R = Except.error Err.zeroChallenge
        ↔ (T.squeeze (T.writePoint (T.writePoint ts L) R)).1 = 0)
      ∧ (transcript_L_R T ts L R
            = Except.ok (T.squeeze (T.writePoint (T.writePoint ts L) R))
        ↔ (T.squeeze (T.writePoint (T.writePoint ts L) R)).1 ≠ 0))
    ∧ (∀ (F' G' σ' : Type) [Field F'] [DecidableEq F'] [AddCommGroup G']
        [DecidableEq G'] [Module F' G'] (T : TO F' G' σ') (ts : σ') (A B : G'),
      (transcript_A_B T ts A B = Except.error Err.zeroChallenge
        ↔ (T.squeeze (T.writePoint (T.writePoint ts A) B)).1 = 0)
      ∧ (transcript_A_B T ts A B
            = Except.ok (T.squeeze (T.writePoint (T.writePoint ts A) B))
        ↔ (T.squeeze (T.writePoint (T.writePoint ts A) B)).1 ≠ 0))
    ∧ prove zT (fun _ => 0) () ⟨[1, 1], [1, 1], 0⟩ [1, 1] [1, 1] 0 0 (P.terms [])
        = Except.error Err.zeroChallenge
    ∧ prove zT (fun _ => 0) () ⟨[1], [1], 0⟩ [1] [1] 0 0 (P.terms [])
        = Except.error Err.zeroChallenge
    ∧ verify zT () ⟨[0], [0], 0, 0, 0, 0, 0⟩ [1, 2] [1, 2] 0 0 (P.point 0)
        = Except.error Err.zeroChallenge
    ∧ verify zT () ⟨[], [], 0, 0, 0, 0, 0⟩ [1] [1] 0 0 (P.point 0)
        = Except.error Err.zeroChallenge := by
  refine ⟨?_, ?_, by decide, by decide, by decide, by decide⟩
  · intro F' G' σ' _ _ _ _ _ T ts L R
    constructor
    · rw [transcript_L_R]
      by_cases hz : (T.squeeze (T.writePoint (T.writePoint ts L) R)).1 = 0 <;>
        simp [hz]
    · rw [transcript_L_R]
      by_cases hz : (T.squeeze (T.writePoint (T.writePoint ts L) R)).1 = 0 <;>
        simp [hz]
  · intro F' G' σ' _ _ _ _ _ T ts A B
    constructor
    · rw [transcript_A_B]
      by_cases hz : (T.squeeze (T.writePoint (T.writePoint ts A) B)).1 = 0 <;>
        simp [hz]
    · rw [transcript_A_B]
      by_cases hz : (T.squeeze (T.writePoint (T.writePoint ts A) B)).1 = 0 <;>
        simp [hz]

section ClaimsC

variable {F : Type} [Field F] [DecidableEq F]
variable {G : Type} [AddCommGroup G] [DecidableEq G] [Module F G]
variable {σ : Type}
variable {α : Type}

/-- C7 (counterexample): with `P` supplied as an opaque point and
dimensions violated at entry (`a.len() = 1 ≠ 0 = generators_g.len()`),
`prove` fails with the opening sanity-check panic — which runs a
multiexponentiation first — rather than the dimension-mismatch failure. -/
theorem prove_dim_report_cex :
    prove wT (fun _ => 0) () ⟨[1], [1], 0⟩ [] [] 1 0 (P.point 0)
      = Except.error Err.openingMismatch := by decide

/-- C7 (amended): when `P` is a term list, any violated entry length
invariant fails with the dimension mismatch before any multiexponentiation
or transcript interaction; when `P` is an opaque point, only the
`a.len() = b.len()` check (inside `inner_product`) still precedes all
cryptographic work — the opening sanity check and its multiexponentiation
run before the `a.len() = generators_g.len()` check. -/
theorem prove_dim_mismatch_order (T : TO F G σ) (rng : ℕ → F) (ts : σ)
    (w : WipWitness F) (gs hs : List G) (gg gh : G) :
    (∀ t : List (F × G), ¬(w.a.length = w.b.length ∧ gs.length = w.a.length) →
      prove T rng ts w gs hs gg gh (P.terms t) = Except.error Err.dimMismatch)
    ∧ (∀ pt : G, w.a.length ≠ w.b.length →
      prove T rng ts w gs hs gg gh (P.point pt) = Except.error Err.dimMismatch) := by
  constructor
  · intro t hc
    rw [prove]
    by_cases h1 : w.a.length = w.b.length
    · have h2 : ¬gs.length = w.b.length := fun h => hc ⟨h1, by rw [h1]; exact h⟩
      simp [h1, h2]
    · simp [h1]
  · intro pt hab
    rw [prove, inner_product, if_neg hab]

/-- Witness for the dimension-mismatch theorem: a term-list call with
`a.len() = 1 ≠ 0 = generators_g.len()` and a point call with
`a.len() = 1 ≠ 2 = b.len()`, both failing with the dimension mismatch. -/
theorem prove_dim_mismatch_order_witness :
    (¬(([1] : List (ZMod 5)).length = ([1] : List (ZMod 5)).length ∧
        ([] : List (ZMod 5)).length = ([1] : List (ZMod 5)).length) ∧
      prove wT (fun _ => 0) () ⟨[1], [1], 0⟩ [] [] 1 0 (P.terms [])
        = Except.error Err.dimMismatch) ∧
    (([1] : List (ZMod 5)).length ≠ ([1, 2] : List (ZMod 5)).length ∧
      prove wT (fun _ => 0) () ⟨[1], [1, 2], 0⟩ [1] [1] 1 0 (P.point 0)
        = Except.error Err.dimMismatch) :=
  ⟨⟨by decide, (prove_dim_mismatch_order wT (fun _ => 0) () ⟨[1], [1], 0⟩ [] [] 1 0).1
      [] (by decide)⟩,
   ⟨by decide, (prove_dim_mismatch_order wT (fun _ => 0) () ⟨[1], [1, 2], 0⟩ [1] [1] 1 0).2
      0 (by decide)⟩⟩

end ClaimsC

section ClaimsD

variable {F : Type} [Field F] [DecidableEq F]
variable {G : Type} [AddCommGroup G] [DecidableEq G] [Module F G]
variable {σ : Type}
variable {α : Type}

/-- C8 (counterexample): for `n = 3` the prover does not run two folding
rounds — it panics with a dimension mismatch in its first round, because
the right halves have length 1 while `n_hat = 2`. -/
theorem prove_n3_cex :
    prove wT (fun _ => 0) () ⟨[1, 1, 1], [1, 1, 1], 0⟩ [1, 1, 1] [1, 1, 1] 1 1
      (P.terms []) = Except.error Err.dimMismatch := by decide

/-- C8 (amended): `split_vector_in_half` does route the extra element of an
odd-length vector to the left half (left `⌈len/2⌉`, right `⌊len/2⌋`, and
the two halves concatenate back); but as a consequence, for `n = 3` the
prover always fails with a dimension mismatch in its first round (the
`assert_eq!(a2.len(), n_hat)` check: `⌊3/2⌋ = 1 ≠ 2 = n_hat`) rather than
collapsing in two rounds. -/
theorem split_left_bias_n3 :
    (∀ (v : List α), (split_vector_in_half v).1.length = (v.length + 1) / 2
      ∧ (split_vector_in_half v).2.length = v.length / 2
      ∧ (split_vector_in_half v).1 ++ (split_vector_in_half v).2 = v)
    ∧ (∀ (T : TO F G σ) (rng : ℕ → F) (ts : σ) (a b : List F) (gs hs : List G)
        (gg gh : G) (alpha : F) (t : List (F × G)),
      a.length = 3 → b.length = 3 → gs.length = 3 → hs.length = 3 →
      prove T rng ts ⟨a, b, alpha⟩ gs hs gg gh (P.terms t)
        = Except.error Err.dimMismatch) := by
  constructor
  · intro v
    refine ⟨?_, ?_, ?_⟩
    · simp [split_vector_in_half]
      omega
    · simp [split_vector_in_half]
      omega
    · simp [split_vector_in_half]
  · intro T rng ts a b gs hs gg gh alpha t ha hb hg hh
    rw [prove]
    simp only
    rw [if_pos (by omega : a.length = b.length), if_pos (by omega : gs.length = a.length)]
    rw [hg, show (3 : ℕ) = 2 + 1 from rfl, proveLoop]
    rw [if_pos (by omega : 1 < gs.length)]
    rw [if_neg]
    intro hcond
    have h2 : (split_vector_in_half a).2.length = 1 := by
      simp [split_vector_in_half, ha]
    have hnh : (split_vector_in_half gs).1.length = 2 := by
      simp [split_vector_in_half, hg]
    rw [hcond.2.1] at h2
    rw [hnh] at h2
    exact absurd h2 (by norm_num)

end ClaimsD

/-- Witness for the odd-split theorem: the `n = 3` failure at a concrete
input. -/
theorem split_left_bias_n3_witness :
    (([1, 1, 1] : List (ZMod 5)).length = 3 ∧ ([1, 1, 1] : List (ZMod 5)).length = 3 ∧
      ([1, 1, 1] : List (ZMod 5)).length = 3 ∧ ([1, 1, 1] : List (ZMod 5)).length = 3) ∧
    prove wT (fun _ => 0) () ⟨[1, 1, 1], [1, 1, 1], 0⟩ [1, 1, 1] [1, 1, 1] 1 1
      (P.terms []) = Except.error Err.dimMismatch :=
  ⟨⟨by decide, by decide, by decide, by decide⟩,
    (@split_left_bias_n3 (ZMod 5) _ _ (ZMod 5) _ _ _ Unit Unit).2 wT (fun _ => 0) ()
      [1, 1, 1] [1, 1, 1] [1, 1, 1] [1, 1, 1] 1 1 0 []
      (by decide) (by decide) (by decide) (by decide)⟩

/-! ### The multi-row variant: `modified_wip.rs`.

`inner_product`, `multiexp`, `split_vector_in_half`, `challenge_products`,
`transcript_A_B`, `transcript_L_R` and the verifier's length/challenge
loops are textually identical in `modified_wip.rs` and are shared with the
definitions above. -/

namespace MW

/-- `WipWitness` of `modified_wip.rs`: the weight set `b` is a list of
rows. -/
structure WipWitness (F : Type) where
  a : List F
  b : List (List F)
  alpha : F
deriving DecidableEq

/-- `WipProof` of `modified_wip.rs`: one `s_answer` per weight row. -/
structure WipProof (F G : Type) where
  L : List G
  R : List G
  A : G
  B : G
  r_answer : F
  s_answer : List F
  delta_answer : F
deriving DecidableEq

section Defs

variable {F : Type} [Field F] [DecidableEq F]
variable {G : Type} [AddCommGroup G] [DecidableEq G] [Module F G]
variable {σ : Type}

/-- `next_G_H` of `modified_wip.rs`: `h_bold` is folded row by row. -/
def next_G_H (T : TO F G σ) (ts : σ) (g_bold1 g_bold2 : List G)
    (h_bold1 h_bold2 : List (List G)) (L R : G) :
    Except Err (F × F × F × F × List G × List (List G) × σ) :=
  if g_bold1.length = g_bold2.length ∧
      (∀ p ∈ h_bold1.zip h_bold2, p.1.length = p.2.length ∧ g_bold1.length = p.1.length) then
    match transcript_L_R T ts L R with
    | Except.error e => Except.error e
    | Except.ok (e, ts') =>
      let inv_e := e⁻¹
      let new_g_bold := List.zipWith
        (fun x y => multiexp (P.terms [(inv_e, x), (e, y)])) g_bold1 g_bold2
      let new_h_bold := List.zipWith
        (fun h1v h2v => List.zipWith
          (fun x y => multiexp (P.terms [(e, x), (inv_e, y)])) h1v h2v)
        h_bold1 h_bold2
      Except.ok (e, inv_e, e * e, inv_e * inv_e, new_g_bold, new_h_bold, ts')
  else Except.error Err.dimMismatch

/-- The `n == 1` final round of the multi-row `prove`: one `s` blind per
weight row, drawn in sequence, then `delta` and `long_n`. -/
def proveFinal (T : TO F G σ) (rng : ℕ → F) (generator_g : List G) (generator_h : G)
    (i : ℕ) (ts : σ) (a : List F) (b : List (List F)) (g_bold : List G)
    (h_bold : List (List G)) (alpha : F) (L_vec R_vec : List G) :
    Except Err (WipProof F G × σ) :=
  match g_bold, a with
  | [g0], [a0] =>
    if ∀ h_i ∈ h_bold, h_i.length = 1 then
      if ∀ b_i ∈ b, b_i.length = 1 then
        let r := rng i
        let s := (List.range h_bold.length).map fun j => rng (i + 1 + j)
        let delta := rng (i + 1 + h_bold.length)
        let long_n := rng (i + 2 + h_bold.length)
        let h_terms := (s.zip h_bold).map fun p => (p.1, p.2.headD 0)
        let g_terms := ((s.zip generator_g).zip b).map
          fun p => ((r * p.2.headD 0) + (p.1.1 * a0), p.1.2)
        let A := multiexp (P.terms ([(r, g0), (delta, generator_h)] ++ h_terms ++ g_terms))
        let g_terms2 := (s.zip generator_g).map fun p => (r * p.1, p.2)
        let B := multiexp (P.terms ([(long_n, generator_h)] ++ g_terms2))
        match transcript_A_B T ts A B with
        | Except.error e => Except.error e
        | Except.ok (e, ts') =>
          Except.ok ({ L := L_vec, R := R_vec, A := A, B := B,
                       r_answer := r + (a0 * e),
                       s_answer := (s.zip b).map (fun p => p.1 + (p.2.headD 0 * e)),
                       delta_answer := long_n + (delta * e) + (alpha * (e * e)) }, ts')
      else Except.error Err.dimMismatch
    else Except.error Err.dimMismatch
  | _, _ => Except.error Err.dimMismatch

/-- The folding loop of the multi-row `prove`; rows of `b` and `h_bold` are
split, cross-multiplied against `generator_g` row by row, and folded with
the challenge assignment opposite to `a`/`g_bold`. -/
def proveLoop (T : TO F G σ) (rng : ℕ → F) (generator_g : List G) (generator_h : G) :
    ℕ → ℕ → σ → List F → List (List F) → List G → List (List G) → F → List G → List G →
    Except Err (WipProof F G × σ)
  | 0, i, ts, a, b, g_bold, h_bold, alpha, L_vec, R_vec =>
    if 1 < g_bold.length then
      -- unreachable: the working length strictly decreases every round
      Except.error Err.dimMismatch
    else proveFinal T rng generator_g generator_h i ts a b g_bold h_bold alpha L_vec R_vec
  | fuel + 1, i, ts, a, b, g_bold, h_bold, alpha, L_vec, R_vec =>
    if 1 < g_bold.length then
      let a1 := (split_vector_in_half a).1
      let a2 := (split_vector_in_half a).2
      let b1 := ((b.map split_vector_in_half).unzip).1
      let b2 := ((b.map split_vector_in_half).unzip).2
      let g_bold1 := (split_vector_in_half g_bold).1
      let g_bold2 := (split_vector_in_half g_bold).2
      let h_bold1 := ((h_bold.map split_vector_in_half).unzip).1
      let h_bold2 := ((h_bold.map split_vector_in_half).unzip).2
      let n_hat := g_bold1.length
      if a1.length = n_hat ∧ a2.length = n_hat ∧
          (∀ b_i ∈ b1, n_hat = b_i.length) ∧ (∀ b_i ∈ b2, n_hat = b_i.length) ∧
          g_bold2.length = n_hat ∧
          (∀ h_i ∈ h_bold1, n_hat = h_i.length) ∧ (∀ h_i ∈ h_bold2, n_hat = h_i.length) then
        let d_l := rng i
        let d_r := rng (i + 1)
        match b2.mapM (inner_product a1) with
        | Except.error e => Except.error e
        | Except.ok c_l =>
          match b1.mapM (inner_product a2) with
          | Except.error e => Except.error e
          | Except.ok c_r =>
            let L_terms := (a1.zip g_bold2) ++ (c_l.zip generator_g) ++
              [(d_l, generator_h)] ++
              ((b2.zip h_bold1).flatMap fun rw => rw.1.zip rw.2)
            let L := multiexp (P.terms L_terms)
            let R_terms := (a2.zip g_bold1) ++ (c_r.zip generator_g) ++
              [(d_r, generator_h)] ++
              ((b1.zip h_bold2).flatMap fun rw => rw.1.zip rw.2)
            let R := multiexp (P.terms R_terms)
            match next_G_H T ts g_bold1 g_bold2 h_bold1 h_bold2 L R with
            | Except.error e => Except.error e
            | Except.ok (e, inv_e, e_square, inv_e_square, g_bold', h_bold', ts') =>
              let a' := fold_scalars a1 a2 e inv_e
              let b' := List.zipWith (fun b1_i b2_i => fold_scalars b1_i b2_i inv_e e) b1 b2
              let alpha' := alpha + (d_l * e_square) + (d_r * inv_e_square)
              proveLoop T rng generator_g generator_h fuel (i + 2) ts' a' b'
                g_bold' h_bold' alpha' (L_vec ++ [L]) (R_vec ++ [R])
      else Except.error Err.dimMismatch
    else proveFinal T rng generator_g generator_h i ts a b g_bold h_bold alpha L_vec R_vec

/-- `prove` of `modified_wip.rs`. -/
def prove (T : TO F G σ) (rng : ℕ → F) (ts : σ) (witness : WipWitness F)
    (generators_g : List G) (generators_h : List (List G)) (generator_g : List G)
    (generator_h : G) (p : P F G) : Except Err (WipProof F G × σ) :=
  let sanity : Except Err Unit :=
    match p with
    | P.point pt =>
      match (witness.b.zip generator_g).mapM (fun p2 =>
          match inner_product witness.a p2.1 with
          | Except.error e => Except.error e
          | Except.ok ip => Except.ok (ip, p2.2)) with
      | Except.error e => Except.error e
      | Except.ok ipterms =>
        let p_terms := (witness.a.zip generators_g) ++
          ((witness.b.zip generators_h).flatMap fun rw => rw.1.zip rw.2) ++
          ipterms ++ [(witness.alpha, generator_h)]
        if multiexp (P.terms p_terms) = pt then Except.ok ()
        else Except.error Err.openingMismatch
    | P.terms _ => Except.ok ()
  match sanity with
  | Except.error e => Except.error e
  | Except.ok _ =>
    if ∀ b_i ∈ witness.b, witness.a.length = b_i.length then
      if generators_g.length = witness.a.length then
        proveLoop T rng generator_g generator_h generators_g.length 0 ts
          witness.a witness.b generators_g generators_h witness.alpha [] []
      else Except.error Err.dimMismatch
    else Except.error Err.dimMismatch

/-- `verify` of `modified_wip.rs` up to its final assert: per-row loops over
`generators_h` and `generator_g`.  The source indexes `proof.s_answer[i]`
in both loops and `product_cache[product_cache.len() - 1 - j]` per column
without bounds checks; the resulting index/underflow panics are modelled as
`Err.indexOOB`, while the loop-bounded accesses (`generators_g[i]`,
`generators_h[i][j]`, `generator_g[i]`, `product_cache[i]`) stay in bounds
and are written with `getD`. -/
def verifyAcc (T : TO F G σ) (ts : σ) (proof : WipProof F G)
    (generators_g : List G) (generators_h : List (List G)) (generator_g : List G)
    (generator_h : G) (p : P F G) : Except Err (List (F × G)) :=
  let lr_len := lrLen generators_g.length
  if proof.L.length = lr_len ∧ proof.R.length = lr_len ∧
      generators_g.length = 2 ^ lr_len then
    let P_terms : List (F × G) :=
      match p with
      | P.point point => [(1, point)]
      | P.terms terms => terms
    match vChallenges T ts (proof.L.zip proof.R) with
    | Except.error e => Except.error e
    | Except.ok (es, ts') =>
      let inv_es := es.map fun e => e⁻¹
      let challenges := es.zip inv_es
      let P_terms := P_terms ++ (challenges.zip (proof.L.zip proof.R)).flatMap
        (fun x => [(x.1.1 * x.1.1, x.2.1), (x.1.2 * x.1.2, x.2.2)])
      let product_cache := challenge_products challenges
      match transcript_A_B T ts' proof.A proof.B with
      | Except.error e => Except.error e
      | Except.ok (e, _) =>
        let neg_e_square := -(e * e)
        let multiexp_var := P_terms.map fun sc => (sc.1 * neg_e_square, sc.2)
        let re := proof.r_answer * e
        let multiexp_var := multiexp_var ++ (List.range generators_g.length).map
          (fun i => (product_cache.getD i 0 * re, generators_g.getD i 0))
        if generators_h.length ≤ proof.s_answer.length ∧
            ∀ row ∈ generators_h, row.length ≤ product_cache.length then
          let multiexp_var := multiexp_var ++ (List.range generators_h.length).flatMap
            (fun i => (List.range (generators_h.getD i []).length).map
              (fun j => ((proof.s_answer.getD i 0 * e) *
                  product_cache.getD (product_cache.length - 1 - j) 0,
                (generators_h.getD i []).getD j 0)))
          if generator_g.length ≤ proof.s_answer.length then
            let multiexp_var := multiexp_var ++ [(-e, proof.A)] ++
              (List.range generator_g.length).map
                (fun i => (proof.r_answer * proof.s_answer.getD i 0, generator_g.getD i 0)) ++
              [(proof.delta_answer, generator_h), (-1, proof.B)]
            Except.ok multiexp_var
          else Except.error Err.indexOOB
        else Except.error Err.indexOOB
  else Except.error Err.entryLen

/-- `verify` of `modified_wip.rs`: the accumulator computation followed by
the final `assert_eq!(multiexp(..), identity)`. -/
def verify (T : TO F G σ) (ts : σ) (proof : WipProof F G)
    (generators_g : List G) (generators_h : List (List G)) (generator_g : List G)
    (generator_h : G) (p : P F G) : Except Err Unit :=
  match verifyAcc T ts proof generators_g generators_h generator_g generator_h p with
  | Except.error e => Except.error e
  | Except.ok mv =>
    if multiexp (P.terms mv) = 0 then Except.ok () else Except.error Err.finalCheck

end Defs

end MW

/-- Fidelity of the index-panic model in the multi-row verifier: a
`proof.s_answer` shorter than `generators_h` makes `proof.s_answer[i]` go
out of bounds, and an h-row longer than the challenge-product table makes
`product_cache[product_cache.len() - 1 - j]` underflow; both Rust panics
are modelled as `Err.indexOOB`. -/
theorem MW.verify_index_oob :
    (MW.verify wT () ⟨[], [], 0, 0, 0, [], 0⟩ [1] [[1]] [0] 0 (P.terms [])
        = Except.error Err.indexOOB)
    ∧ (MW.verify wT () ⟨[], [], 0, 0, 0, [1], 0⟩ [1] [[1, 1]] [0] 0 (P.terms [])
        = Except.error Err.indexOOB) := by decide

/-- Wrap a single-row proof as a multi-row proof with one `s_answer`. -/
def toMulti {F G : Type} (pf : WipProof F G) : MW.WipProof F G :=
  ⟨pf.L, pf.R, pf.A, pf.B, pf.r_answer, [pf.s_answer], pf.delta_answer⟩

/-! ### Single-row / multi-row equivalence (k = 1) -/

section SingleRow

variable {F : Type} [Field F] [DecidableEq F]
variable {G : Type} [AddCommGroup G] [DecidableEq G] [Module F G]
variable {σ : Type}
variable {β γ : Type}

theorem mapM_singleton (f : β → Except Err γ) (x : β) :
    List.mapM f [x] = match f x with
      | Except.error e => Except.error e
      | Except.ok y => Except.ok [y] := by
  cases hf : f x <;>
    simp [List.mapM, List.mapM.loop, hf, bind, Except.bind, pure, Except.pure]

theorem nextGH_single_row (T : TO F G σ) (ts : σ) (g1 g2 : List G) (h1 h2 : List G)
    (L R : G) :
    MW.next_G_H T ts g1 g2 [h1] [h2] L R
      = match next_G_H T ts g1 g2 h1 h2 L R with
        | Except.error e => Except.error e
        | Except.ok (e, ie, e2, ie2, g', h', ts') =>
          Except.ok (e, ie, e2, ie2, g', [h'], ts') := by
  rw [MW.next_G_H, next_G_H]
  by_cases hc : g1.length = g2.length ∧ h1.length = h2.length ∧ g1.length = h1.length
  · rw [if_pos hc, if_pos (by
      refine ⟨hc.1, ?_⟩
      intro p hp
      simp only [List.zip_cons_cons, List.zip_nil_right, List.mem_singleton] at hp
      rw [hp]
      exact ⟨hc.2.1, hc.2.2⟩)]
    cases htlr : transcript_L_R T ts L R with
    | error e => rfl
    | ok q => obtain ⟨e, ts'⟩ := q; rfl
  · rw [if_neg hc, if_neg (by
      rintro ⟨h1c, h2c⟩
      exact hc ⟨h1c, (h2c (h1, h2) (by simp)).1, (h2c (h1, h2) (by simp)).2⟩)]

theorem multiexp_MW_L_single (a1 : List F) (g2 : List G) (c d : F) (gg gh : G)
    (b2 : List F) (h1 : List G) :
    multiexp (P.terms ((a1.zip g2) ++ ([c].zip [gg]) ++ [(d, gh)] ++
        (([b2].zip [h1]).flatMap fun rw => rw.1.zip rw.2)))
      = multiexp (P.terms ((a1.zip g2) ++ (b2.zip h1) ++ [(c, gg), (d, gh)])) := by
  rw [multiexp_terms, multiexp_terms]
  simp only [List.zip_cons_cons, List.zip_nil_right, List.flatMap_cons, List.flatMap_nil,
    List.append_nil, sumTerms_append]
  simp only [sumTerms, List.map_cons, List.map_nil, List.sum_cons, List.sum_nil]
  abel

theorem multiexp_MW_A_single (r delta s0 c : F) (g0 gh h0 gg : G) :
    multiexp (P.terms ([(r, g0), (delta, gh)] ++ [(s0, h0)] ++ [(c, gg)]))
      = multiexp (P.terms [(r, g0), (s0, h0), (c, gg), (delta, gh)]) := by
  rw [multiexp_terms, multiexp_terms]
  simp only [sumTerms_append]
  simp only [sumTerms, List.map_cons, List.map_nil, List.sum_cons, List.sum_nil]
  abel

theorem multiexp_MW_B_single (eta c : F) (gh gg : G) :
    multiexp (P.terms ([(eta, gh)] ++ [(c, gg)]))
      = multiexp (P.terms [(c, gg), (eta, gh)]) := by
  rw [multiexp_terms, multiexp_terms]
  simp only [sumTerms_append]
  simp only [sumTerms, List.map_cons, List.map_nil, List.sum_cons, List.sum_nil]
  abel

end SingleRow

section SingleRow2

variable {F : Type} [Field F] [DecidableEq F]
variable {G : Type} [AddCommGroup G] [DecidableEq G] [Module F G]
variable {σ : Type}

theorem proveFinal_single_row (T : TO F G σ) (rng : ℕ → F) (gg gh : G)
    (i : ℕ) (ts : σ) (a b : List F) (g h : List G) (alpha : F) (Ls Rs : List G) :
    MW.proveFinal T rng [gg] gh i ts a [b] g [h] alpha Ls Rs
      = (proveFinal T rng gg gh i ts a b g h alpha Ls Rs).map
          (fun r => (toMulti r.1, r.2)) := by
  cases g with
  | nil => simp [MW.proveFinal, proveFinal, Except.map]
  | cons g0 gt =>
  cases gt with
  | cons g1 gt2 => simp [MW.proveFinal, proveFinal, Except.map]
  | nil =>
  cases a with
  | nil => simp [MW.proveFinal, proveFinal, Except.map]
  | cons a0 at1 =>
  cases at1 with
  | cons a1 at2 => simp [MW.proveFinal, proveFinal, Except.map]
  | nil =>
  cases h with
  | nil => simp [MW.proveFinal, proveFinal, Except.map]
  | cons h0 ht =>
  cases ht with
  | cons h1 ht2 => simp [MW.proveFinal, proveFinal, Except.map]
  | nil =>
  cases b with
  | nil => simp [MW.proveFinal, proveFinal, Except.map]
  | cons b0 bt =>
  cases bt with
  | cons b1 bt2 => simp [MW.proveFinal, proveFinal, Except.map]
  | nil =>
    have h12 : i + 1 + 1 = i + 2 := rfl
    have h23 : i + 2 + 1 = i + 3 := rfl
    have hA : multiexp (P.terms ([(rng i, g0), (rng (i + 2), gh)] ++
          [(rng (i + 1), h0)] ++ [((rng i * b0) + (rng (i + 1) * a0), gg)]))
        = multiexp (P.terms [(rng i, g0), (rng (i + 1), h0),
            ((rng i * b0) + (rng (i + 1) * a0), gg), (rng (i + 2), gh)]) :=
      multiexp_MW_A_single (rng i) (rng (i + 2)) (rng (i + 1))
        ((rng i * b0) + (rng (i + 1) * a0)) g0 gh h0 gg
    have hB : multiexp (P.terms ([(rng (i + 3), gh)] ++ [(rng i * rng (i + 1), gg)]))
        = multiexp (P.terms [(rng i * rng (i + 1), gg), (rng (i + 3), gh)]) :=
      multiexp_MW_B_single (rng (i + 3)) (rng i * rng (i + 1)) gh gg
    simp only [MW.proveFinal, proveFinal, List.length_cons, List.length_nil,
      List.range_succ, List.range_zero, List.map_cons, List.map_nil, List.nil_append,
      List.zip_cons_cons, List.zip_nil_right, List.headD_cons, Nat.add_zero, h12, h23,
      List.cons_append, List.singleton_append, List.append_nil]
    rw [if_pos (by simp), if_pos (by simp)]
    simp only [List.singleton_append, List.cons_append, List.nil_append] at hA hB
    rw [hA, hB]
    cases htab : transcript_A_B T ts
        (multiexp (P.terms [(rng i, g0), (rng (i + 1), h0),
          ((rng i * b0) + (rng (i + 1) * a0), gg), (rng (i + 2), gh)]))
        (multiexp (P.terms [(rng i * rng (i + 1), gg), (rng (i + 3), gh)])) with
    | error er => simp [Except.map]
    | ok q =>
      obtain ⟨e, ts2⟩ := q
      simp [Except.map, toMulti]
end SingleRow2

section SingleRow3

variable {F : Type} [Field F] [DecidableEq F]
variable {G : Type} [AddCommGroup G] [DecidableEq G] [Module F G]
variable {σ : Type}

theorem proveLoop_single_row (T : TO F G σ) (rng : ℕ → F) (gg gh : G) :
    ∀ (fuel i : ℕ) (ts : σ) (a b : List F) (g h : List G) (alpha : F) (Ls Rs : List G),
    MW.proveLoop T rng [gg] gh fuel i ts a [b] g [h] alpha Ls Rs
      = (proveLoop T rng gg gh fuel i ts a b g h alpha Ls Rs).map
          (fun r => (toMulti r.1, r.2)) := by
  intro fuel
  induction fuel with
  | zero =>
    intro i ts a b g h alpha Ls Rs
    rw [MW.proveLoop, proveLoop]
    by_cases hgt : 1 < g.length
    · rw [if_pos hgt, if_pos hgt]
      simp [Except.map]
    · rw [if_neg hgt, if_neg hgt]
      exact proveFinal_single_row T rng gg gh i ts a b g h alpha Ls Rs
  | succ fuel ih =>
    intro i ts a b g h alpha Ls Rs
    rw [MW.proveLoop, proveLoop]
    by_cases hgt : 1 < g.length
    · rw [if_pos hgt, if_pos hgt]
      simp only [List.map_cons, List.map_nil, List.unzip_cons, List.unzip_nil,
        List.mem_singleton, forall_eq]
      by_cases hc : (split_vector_in_half a).1.length = (split_vector_in_half g).1.length ∧
          (split_vector_in_half a).2.length = (split_vector_in_half g).1.length ∧
          (split_vector_in_half b).1.length = (split_vector_in_half g).1.length ∧
          (split_vector_in_half b).2.length = (split_vector_in_half g).1.length ∧
          (split_vector_in_half g).2.length = (split_vector_in_half g).1.length ∧
          (split_vector_in_half h).1.length = (split_vector_in_half g).1.length ∧
          (split_vector_in_half h).2.length = (split_vector_in_half g).1.length
      · rw [if_pos hc, if_pos (by
          obtain ⟨h1, h2, h3, h4, h5, h6, h7⟩ := hc
          exact ⟨h1, h2, h3.symm, h4.symm, h5, h6.symm, h7.symm⟩)]
        rw [mapM_singleton, mapM_singleton]
        cases hip1 : inner_product (split_vector_in_half a).1 (split_vector_in_half b).2 with
        | error er => simp [Except.map]
        | ok c_l =>
          simp only
          cases hip2 : inner_product (split_vector_in_half a).2 (split_vector_in_half b).1 with
          | error er => simp [Except.map]
          | ok c_r =>
            simp only
            rw [multiexp_MW_L_single (split_vector_in_half a).1 (split_vector_in_half g).2
              c_l (rng i) gg gh (split_vector_in_half b).2 (split_vector_in_half h).1]
            rw [multiexp_MW_L_single (split_vector_in_half a).2 (split_vector_in_half g).1
              c_r (rng (i + 1)) gg gh (split_vector_in_half b).1 (split_vector_in_half h).2]
            rw [nextGH_single_row]
            cases hngh : next_G_H T ts (split_vector_in_half g).1 (split_vector_in_half g).2
                (split_vector_in_half h).1 (split_vector_in_half h).2
                (multiexp (P.terms (((split_vector_in_half a).1.zip (split_vector_in_half g).2) ++
                  ((split_vector_in_half b).2.zip (split_vector_in_half h).1) ++
                  [(c_l, gg), (rng i, gh)])))
                (multiexp (P.terms (((split_vector_in_half a).2.zip (split_vector_in_half g).1) ++
                  ((split_vector_in_half b).1.zip (split_vector_in_half h).2) ++
                  [(c_r, gg), (rng (i + 1), gh)]))) with
            | error er => simp [Except.map]
            | ok q =>
              obtain ⟨e, ie, e2, ie2, g', h', ts'⟩ := q
              simp only [List.zipWith_cons_cons, List.zipWith_nil_right]
              exact ih (i + 2) ts' (fold_scalars (split_vector_in_half a).1
                (split_vector_in_half a).2 e ie)
                (fold_scalars (split_vector_in_half b).1 (split_vector_in_half b).2 ie e)
                g' h' (alpha + rng i * e2 + rng (i + 1) * ie2) (Ls ++ [_]) (Rs ++ [_])
      · rw [if_neg hc, if_neg (by
          rintro ⟨h1, h2, h3, h4, h5, h6, h7⟩
          exact hc ⟨h1, h2, h3.symm, h4.symm, h5, h6.symm, h7.symm⟩)]
        simp [Except.map]
    · rw [if_neg hgt, if_neg hgt]
      exact proveFinal_single_row T rng gg gh i ts a b g h alpha Ls Rs

end SingleRow3

section SingleRow4

variable {F : Type} [Field F] [DecidableEq F]
variable {G : Type} [AddCommGroup G] [DecidableEq G] [Module F G]
variable {σ : Type}

theorem prove_single_row (T : TO F G σ) (rng : ℕ → F) (ts : σ)
    (a brow : List F) (alpha : F) (gs hsrow : List G) (gg gh : G) (p : P F G) :
    MW.prove T rng ts ⟨a, [brow], alpha⟩ gs [hsrow] [gg] gh p
      = (prove T rng ts ⟨a, brow, alpha⟩ gs hsrow gg gh p).map
          (fun r => (toMulti r.1, r.2)) := by
  rw [MW.prove.eq_def, prove.eq_def]
  cases p with
  | terms t =>
    simp only [List.mem_singleton, forall_eq]
    by_cases h1 : a.length = brow.length
    · rw [if_pos h1, if_pos h1]
      by_cases h2 : gs.length = a.length
      · rw [if_pos h2, if_pos h2]
        exact proveLoop_single_row T rng gg gh gs.length 0 ts a brow gs hsrow alpha [] []
      · rw [if_neg h2, if_neg h2]
        simp [Except.map]
    · rw [if_neg h1, if_neg h1]
      simp [Except.map]
  | point pt =>
    simp only [List.zip_cons_cons, List.zip_nil_right]
    rw [mapM_singleton]
    cases hip : inner_product a brow with
    | error er => simp [Except.map]
    | ok ip =>
      simp only [List.flatMap_cons, List.flatMap_nil, List.append_nil,
        List.mem_singleton, forall_eq]
      have hterms : (a.zip gs) ++ (brow.zip hsrow) ++ [(ip, gg)] ++ [(alpha, gh)]
          = (a.zip gs) ++ (brow.zip hsrow) ++ [(ip, gg), (alpha, gh)] := by simp
      rw [hterms]
      by_cases hop : multiexp (P.terms ((a.zip gs) ++ (brow.zip hsrow) ++
          [(ip, gg), (alpha, gh)])) = pt
      · rw [if_pos hop]
        simp only
        by_cases h1 : a.length = brow.length
        · rw [if_pos h1, if_pos h1]
          by_cases h2 : gs.length = a.length
          · rw [if_pos h2, if_pos h2]
            exact proveLoop_single_row T rng gg gh gs.length 0 ts a brow gs hsrow alpha [] []
          · rw [if_neg h2, if_neg h2]
            simp [Except.map]
        · rw [if_neg h1, if_neg h1]
          simp [Except.map]
      · rw [if_neg hop]
        simp [Except.map]

theorem verifyAcc_single_row (T : TO F G σ) (ts : σ) (pf : WipProof F G)
    (gs hsrow : List G) (gg gh : G) (p : P F G) (hlen : hsrow.length = gs.length) :
    MW.verifyAcc T ts (toMulti pf) gs [hsrow] [gg] gh p
      = verifyAcc T ts pf gs hsrow gg gh p := by
  rw [MW.verifyAcc.eq_def, verifyAcc.eq_def]
  simp only [toMulti]
  by_cases hc : pf.L.length = lrLen gs.length ∧ pf.R.length = lrLen gs.length ∧
      gs.length = 2 ^ lrLen gs.length
  · rw [if_pos hc, if_pos hc]
    cases hv : vChallenges T ts (pf.L.zip pf.R) with
    | error er => simp
    | ok q =>
      obtain ⟨es, ts'⟩ := q
      simp only
      cases htab : transcript_A_B T ts' pf.A pf.B with
      | error er => simp
      | ok q2 =>
        obtain ⟨e, ts2⟩ := q2
        have hes : es.length = lrLen gs.length := by
          rw [vChallenges_length T (pf.L.zip pf.R) ts es ts' hv, List.length_zip,
            hc.1, hc.2.1, min_self]
        have hpc : (challenge_products (es.zip (List.map (fun x => x⁻¹) es))).length
            = gs.length := by
          rw [challenge_products_eq_cpSpec, cpSpec_length, List.length_zip,
            List.length_map, min_self, hes]
          exact hc.2.2.symm
        simp [hlen, hpc, List.range_succ, List.range_zero, List.flatMap_cons,
          List.flatMap_nil]
  · rw [if_neg hc, if_neg hc]

theorem verify_single_row (T : TO F G σ) (ts : σ) (pf : WipProof F G)
    (gs hsrow : List G) (gg gh : G) (p : P F G) (hlen : hsrow.length = gs.length) :
    MW.verify T ts (toMulti pf) gs [hsrow] [gg] gh p
      = verify T ts pf gs hsrow gg gh p := by
  rw [MW.verify, verify, verifyAcc_single_row T ts pf gs hsrow gg gh p hlen]

end SingleRow4

section ClaimC9

variable {F : Type} [Field F] [DecidableEq F]
variable {G : Type} [AddCommGroup G] [DecidableEq G] [Module F G]
variable {σ : Type}

/-- C9: For k = 1 the multi-row argument of modified_wip.rs degenerates to the
single-row argument of weighted_inner_product.rs: with witness rows `[brow]`,
generators_h `[hsrow]` and generator_g `[gg]`, `MW.prove` produces exactly the
single-row proof wrapped by `toMulti` (same transcript state, same errors), and
`MW.verify` of a wrapped proof coincides with the single-row `verify`, provided
the h-row has the same length as generators_g (the two verifiers bound their
h-loops by these respective lengths). -/
theorem single_row_equivalence (T : TO F G σ) (rng : ℕ → F) (ts : σ)
    (a brow : List F) (alpha : F) (gs hsrow : List G) (gg gh : G) (p : P F G)
    (hlen : hsrow.length = gs.length) :
    (MW.prove T rng ts ⟨a, [brow], alpha⟩ gs [hsrow] [gg] gh p
      = (prove T rng ts ⟨a, brow, alpha⟩ gs hsrow gg gh p).map
          (fun r => (toMulti r.1, r.2)))
    ∧ (∀ pf : WipProof F G,
        MW.verify T ts (toMulti pf) gs [hsrow] [gg] gh p
          = verify T ts pf gs hsrow gg gh p) :=
  ⟨prove_single_row T rng ts a brow alpha gs hsrow gg gh p,
   fun pf => verify_single_row T ts pf gs hsrow gg gh p hlen⟩

/-- Closed witness for C9 over ZMod 5: a concrete single-row instance where the
hypothesis holds and both equalities are instantiated. -/
theorem single_row_equivalence_witness :
    (([(2 : ZMod 5)] : List (ZMod 5)).length = ([(1 : ZMod 5)] : List (ZMod 5)).length)
    ∧ (MW.prove wT (fun n => (n : ZMod 5) + 1) () ⟨[1], [[2]], 1⟩ [1] [[2]] [3] 4 (P.point 0)
        = (prove wT (fun n => (n : ZMod 5) + 1) () ⟨[1], [2], 1⟩ [1] [2] 3 4 (P.point 0)).map
            (fun r => (toMulti r.1, r.2)))
    ∧ (MW.verify wT () (toMulti ⟨[], [], 4, 2, 2, 4, 3⟩) [1] [[2]] [3] 4 (P.point 0)
        = verify wT () ⟨[], [], 4, 2, 2, 4, 3⟩ [1] [2] 3 4 (P.point 0)) :=
  ⟨by decide,
   (single_row_equivalence wT (fun n => (n : ZMod 5) + 1) () [1] [2] 1 [1] [2] 3 4
      (P.point 0) (by decide)).1,
   (single_row_equivalence wT (fun n => (n : ZMod 5) + 1) () [1] [2] 1 [1] [2] 3 4
      (P.point 0) (by decide)).2 ⟨[], [], 4, 2, 2, 4, 3⟩⟩

end ClaimC9
